import Mathlib

/-!
Verification of the Finciero/errors library (Go) against its specification.

The Go sources (errors.go, utils.go) are shallowly embedded below.  Modelling
conventions:

* Go strings are modelled as Lean `String` (sequences of unicode scalar
  values); invalid-UTF-8 byte sequences are out of scope.
* A Go `map[string]interface{}` (the `Meta` type) is modelled as its
  key-sorted association list: `encoding/json` marshals map keys in sorted
  order and map equality is key-value equality, so the sorted association
  list is the canonical value of a map.  All library operations preserve
  this canonical form.
* Metadata values (`interface{}` in Go) are modelled as JSON scalar values
  (string, integer number, boolean, null), following the spec (sections 7
  and 9), which restricts metadata values to JSON-safe scalars.  JSON
  fractional/exponent number literals and composite values nested inside
  `meta` are outside the model.
* `grpc.Errorf(code, desc)` is modelled as constructing the pair
  `(code, desc)`; `grpc.Code`/`grpc.ErrorDesc` are the projections.  The
  `fmt` format-verb processing that `grpc.Errorf` applies to `desc` is not
  modelled.  The int32 -> codes.Code (uint32) -> int32 conversion of the
  status code composes to the identity and is modelled as such.
* Wrapped causes (`error` interface values stored in `InternalError`) are
  the opaque errors that occur in this repository: values produced by
  `errors.New`/`fmt.Errorf` and gRPC errors.  Both have no exported fields,
  so `encoding/json` marshals them as the empty object.
-/

namespace Errors

/-- JSON scalar values, the model of Go `interface{}` metadata values
(restricted to JSON-safe scalars per the spec, sections 7 and 9). -/
inductive JVal where
  | jstr (s : String)
  | jnum (n : Int)
  | jbool (b : Bool)
  | jnull
deriving DecidableEq

/-- Go type `Meta map[string]interface{}`, modelled as its key-sorted
association list (the canonical value of a Go map). -/
abbrev Meta := List (String × JVal)

/-- Lexicographic comparison of character lists, by code point.  This is
the order `encoding/json` sorts map keys in (byte-wise comparison of the
UTF-8 encodings, and UTF-8 preserves code-point order). -/
def charsLt : List Char → List Char → Bool
  | _, [] => false
  | [], _ :: _ => true
  | a :: as, b :: bs =>
    if a < b then true
    else if b < a then false
    else charsLt as bs

/-- Lexicographic string comparison (Go `<` on strings). -/
def strLt (a b : String) : Bool := charsLt a.data b.data

/-- Map assignment `m[k] = v` on the canonical (key-sorted) association
list: replace the binding of `k` if present, otherwise insert in order. -/
def metaInsert (k : String) (v : JVal) : Meta → Meta
  | [] => [(k, v)]
  | (k2, v2) :: rest =>
    if k = k2 then (k, v) :: rest
    else if strLt k k2 then (k, v) :: (k2, v2) :: rest
    else (k2, v2) :: metaInsert k v rest

/-- Look up a key in a metadata map. -/
def metaFind (m : Meta) (k : String) : Option JVal :=
  match m with
  | [] => none
  | (k2, v) :: rest => if k = k2 then some v else metaFind rest k

/-- The body of `SetMeta`'s closure: assign every pair of `m` into `params`
(Go `for key, value := range m { (*params)[key] = value }`; the `*params ==
nil` branch of the source, which installs `m` itself, is map-equal to
assigning every pair into the empty map). -/
def mergeMeta (params : Meta) (m : Meta) : Meta :=
  m.foldl (fun acc kv => metaInsert kv.1 kv.2 acc) params

/-- Go `SetMeta`: an option (errorParamsSetter) merging the given map into
the accumulated metadata, right-biased. -/
def SetMeta (m : Meta) : Meta → Meta :=
  fun params => mergeMeta params m

/-- Go `var meta Meta; for _, fn := range setters { fn(&meta) }`:
fold the option functions over the initially nil metadata. -/
def applySetters (setters : List (Meta → Meta)) : Meta :=
  setters.foldl (fun m f => f m) []

/-- An opaque Go `error` value wrapped as an internal cause: either a plain
error (`errors.New` / `fmt.Errorf`) or an error built by `grpc.Errorf`.
Neither has exported fields, so `encoding/json` marshals both as `\x7b\x7d`. -/
inductive GoErr where
  | plain (msg : String)
  | grpcE (code : Int) (desc : String)
deriving DecidableEq

/-- The `Error()` string of a wrapped Go error (the gRPC case follows
grpc's `rpcError.Error`). -/
def GoErr.errMsg : GoErr → String
  | .plain m => m
  | .grpcE c d => "rpc error: code = " ++ toString c ++ " desc = " ++ d

/-- Go struct `Error` (errors.go): status code, metadata, message, and the
optional wrapped internal cause. -/
structure Error where
  StatusCode : Int
  Meta : Meta
  Message : String
  InternalError : Option GoErr
deriving DecidableEq

/-- Go `New(code, msg, setters...)`. -/
def New (code : Int) (msg : String) (setters : List (Meta → Meta)) : Error :=
  ⟨code, applySetters setters, msg, none⟩

/-- Go `NewFromError(code, err, msg, setters...)`. -/
def NewFromError (code : Int) (err : Option GoErr) (msg : String)
    (setters : List (Meta → Meta)) : Error :=
  ⟨code, applySetters setters, msg, err⟩

/-- Go constant `StatusBadRequest = bad_request`. -/
def StatusBadRequest : Int := 400

/-- Go constant `StatusUnauthorized = unauthorized`. -/
def StatusUnauthorized : Int := 401

/-- Go constant `StatusPaymentRequired = delinquent`. -/
def StatusPaymentRequired : Int := 402

/-- Go constant `StatusForbidden = forbidden`. -/
def StatusForbidden : Int := 403

/-- Go constant `StatusNotFound = not_found`. -/
def StatusNotFound : Int := 404

/-- Go constant `StatusNotAcceptable = not_acceptable`. -/
def StatusNotAcceptable : Int := 406

/-- Go constant `StatusUnprocessableEntity = invalid_params`. -/
def StatusUnprocessableEntity : Int := 422

/-- Go constant `StatusTooManyRequests = rate_limit`. -/
def StatusTooManyRequests : Int := 429

/-- Go constant `StatusInternalServerError = internal_server`. -/
def StatusInternalServerError : Int := 500

/-- Go `BadRequest(message, setters...)`. -/
def BadRequest (msg : String) (setters : List (Meta → Meta)) : Error :=
  New StatusBadRequest msg setters

/-- Go `BadRequestFromError(err, msg, setters...)`. -/
def BadRequestFromError (err : Option GoErr) (msg : String)
    (setters : List (Meta → Meta)) : Error :=
  NewFromError StatusBadRequest err msg setters

/-- Go `Unauthorized(message, setters...)`. -/
def Unauthorized (msg : String) (setters : List (Meta → Meta)) : Error :=
  New StatusUnauthorized msg setters

/-- Go `UnauthorizedFromError(err, msg, setters...)`. -/
def UnauthorizedFromError (err : Option GoErr) (msg : String)
    (setters : List (Meta → Meta)) : Error :=
  NewFromError StatusUnauthorized err msg setters

/-- Go `Delinquent(message, setters...)`. -/
def Delinquent (msg : String) (setters : List (Meta → Meta)) : Error :=
  New StatusPaymentRequired msg setters

/-- Go `DelinquentFromError(err, msg, setters...)`. -/
def DelinquentFromError (err : Option GoErr) (msg : String)
    (setters : List (Meta → Meta)) : Error :=
  NewFromError StatusPaymentRequired err msg setters

/-- Go `Forbidden(message, setters...)`. -/
def Forbidden (msg : String) (setters : List (Meta → Meta)) : Error :=
  New StatusForbidden msg setters

/-- Go `ForbiddenFromError(err, msg, setters...)`. -/
def ForbiddenFromError (err : Option GoErr) (msg : String)
    (setters : List (Meta → Meta)) : Error :=
  NewFromError StatusForbidden err msg setters

/-- Go `NotFound(message, setters...)`. -/
def NotFound (msg : String) (setters : List (Meta → Meta)) : Error :=
  New StatusNotFound msg setters

/-- Go `NotFoundFromError(err, msg, setters...)`. -/
def NotFoundFromError (err : Option GoErr) (msg : String)
    (setters : List (Meta → Meta)) : Error :=
  NewFromError StatusNotFound err msg setters

/-- Go `NotAcceptable(message, setters...)`. -/
def NotAcceptable (msg : String) (setters : List (Meta → Meta)) : Error :=
  New StatusNotAcceptable msg setters

/-- Go `NotAcceptableFromError(err, msg, setters...)`. -/
def NotAcceptableFromError (err : Option GoErr) (msg : String)
    (setters : List (Meta → Meta)) : Error :=
  NewFromError StatusNotAcceptable err msg setters

/-- Go `InvalidParams(message, setters...)`. -/
def InvalidParams (msg : String) (setters : List (Meta → Meta)) : Error :=
  New StatusUnprocessableEntity msg setters

/-- Go `InvalidParamsFromError(err, msg, setters...)`. -/
def InvalidParamsFromError (err : Option GoErr) (msg : String)
    (setters : List (Meta → Meta)) : Error :=
  NewFromError StatusUnprocessableEntity err msg setters

/-- Go `RateLimit(message, setters...)`. -/
def RateLimit (msg : String) (setters : List (Meta → Meta)) : Error :=
  New StatusTooManyRequests msg setters

/-- Go `RateLimitFromError(err, msg, setters...)`. -/
def RateLimitFromError (err : Option GoErr) (msg : String)
    (setters : List (Meta → Meta)) : Error :=
  NewFromError StatusTooManyRequests err msg setters

/-- Go `InternalServer(message, setters...)`. -/
def InternalServer (msg : String) (setters : List (Meta → Meta)) : Error :=
  New StatusInternalServerError msg setters

/-- Go `InternalServerFromError(err, msg, setters...)`. -/
def InternalServerFromError (err : Option GoErr) (msg : String)
    (setters : List (Meta → Meta)) : Error :=
  NewFromError StatusInternalServerError err msg setters

/-- Decimal digit character. -/
def digitChar (n : Nat) : Char := Char.ofNat (48 + n)

/-- Fuel-driven decimal printer for natural numbers (most significant digit
first, accumulator style); any fuel above the digit count is enough. -/
def natCharsAux : Nat → Nat → List Char → List Char
  | 0, _, acc => acc
  | fuel + 1, n, acc =>
    if n < 10 then digitChar n :: acc
    else natCharsAux fuel (n / 10) (digitChar (n % 10) :: acc)

/-- Decimal digits of a natural number. -/
def natChars (n : Nat) : List Char := natCharsAux (n + 1) n []

/-- Decimal digits of an integer (Go `%d` / `strconv.Itoa`). -/
def intChars (n : Int) : List Char :=
  if n < 0 then '-' :: natChars n.natAbs else natChars n.toNat

/-- Decimal string of an integer. -/
def intStr (n : Int) : String := String.mk (intChars n)

/-- Modelled from the spec: the `String` method on `Code` lives in the
stringer-generated file `code_string.go`, which is part of the repository
but not under src/ (src only shows the `go:generate stringer -type=Code`
marker, the `Code` constants, and callers via `fmt.Sprint`).  Per the
spec's fixed table it maps each registered code to its snake_case constant
name and any unregistered code n to the deterministic fallback `Code(n)`. -/
def codeStr (n : Int) : String :=
  if n = 400 then "bad_request"
  else if n = 401 then "unauthorized"
  else if n = 402 then "delinquent"
  else if n = 403 then "forbidden"
  else if n = 404 then "not_found"
  else if n = 406 then "not_acceptable"
  else if n = 422 then "invalid_params"
  else if n = 429 then "rate_limit"
  else if n = 500 then "internal_server"
  else "Code(" ++ intStr n ++ ")"

/-- Go `(e *Error) ErrorID()`: `fmt.Sprint(e.StatusCode)`, which dispatches
to the stringer-generated `Code.String`. -/
def Error.ErrorID (e : Error) : String := codeStr e.StatusCode

/-- Go `(e *Error) Code()`: the status code as an int. -/
def Error.Code (e : Error) : Int := e.StatusCode

/-- Lowercase hexadecimal digit character. -/
def hexChar (n : Nat) : Char :=
  if n < 10 then Char.ofNat (48 + n) else Char.ofNat (87 + n)

/-- Per-character escaping of Go `encoding/json` string encoding (with its
default HTML escaping of `<`, `>`, `&`, and the unconditional escaping of
U+2028/U+2029). -/
def escChar (c : Char) : List Char :=
  if c = '"' then ['\\', '"']
  else if c = '\\' then ['\\', '\\']
  else if c = '\n' then ['\\', 'n']
  else if c = '\r' then ['\\', 'r']
  else if c = '\t' then ['\\', 't']
  else if c.toNat < 32 then
    ['\\', 'u', '0', '0', hexChar (c.toNat / 16), hexChar (c.toNat % 16)]
  else if c = '<' then ['\\', 'u', '0', '0', '3', 'c']
  else if c = '>' then ['\\', 'u', '0', '0', '3', 'e']
  else if c = '&' then ['\\', 'u', '0', '0', '2', '6']
  else if c.toNat = 8232 then ['\\', 'u', '2', '0', '2', '8']
  else if c.toNat = 8233 then ['\\', 'u', '2', '0', '2', '9']
  else [c]

/-- JSON encoding of a string (quotes plus escaped content). -/
def encodeStr (s : String) : List Char :=
  '"' :: s.data.flatMap escChar ++ ['"']

/-- JSON encoding of a scalar value. -/
def encodeJVal : JVal → List Char
  | .jstr s => encodeStr s
  | .jnum n => intChars n
  | .jbool true => ['t', 'r', 'u', 'e']
  | .jbool false => ['f', 'a', 'l', 's', 'e']
  | .jnull => ['n', 'u', 'l', 'l']

/-- JSON object body: `"key":value` fields joined by commas (the shape
`encoding/json` produces for a struct or a map). -/
def printFields : List (String × List Char) → List Char
  | [] => []
  | [(k, v)] => encodeStr k ++ ':' :: v
  | (k, v) :: rest => encodeStr k ++ ':' :: v ++ ',' :: printFields rest

/-- JSON encoding of a metadata map (keys in list order, which for the
canonical key-sorted list is exactly `encoding/json`'s sorted-key order
for maps). -/
def printMetaObj (m : Meta) : List Char :=
  '\x7b' :: printFields (m.map fun kv => (kv.1, encodeJVal kv.2)) ++ ['\x7d']

/-- Go `encoding/json` marshaling of a non-nil wrapped `error` interface
value: the error types that occur in this repository (`errors.New`
errors and gRPC errors) have no exported fields, so both marshal as the
empty object. -/
def GoErr.marshalJson (_ : GoErr) : List Char := ['\x7b', '\x7d']

/-- The fields of the anonymous wire struct of `ToGRPC`
(`Meta json:"meta,omitempty"`, `Message json:"msg,omitempty"`,
`InternalError json:"internal_error,omitempty"`), with `omitempty`
dropping the empty map, the empty string, and the nil interface. -/
def wireFields (e : Error) : List (String × List Char) :=
  (if e.Meta = [] then [] else [("meta", printMetaObj e.Meta)]) ++
  (if e.Message = "" then [] else [("msg", encodeStr e.Message)]) ++
  (match e.InternalError with
   | none => []
   | some g => [("internal_error", g.marshalJson)])

/-- The JSON description string `ToGRPC` marshals (`buff`). -/
def wireMarshalChars (e : Error) : List Char :=
  '\x7b' :: printFields (wireFields e) ++ ['\x7d']

/-- An error built by `grpc.Errorf`: a numeric status code and a string
description. -/
structure GrpcError where
  code : Int
  desc : String
deriving DecidableEq

/-- Go `(e *Error) ToGRPC()`: `grpc.Errorf(codes.Code(e.StatusCode),
string(buff))` where `buff` is the JSON marshaling of the wire struct. -/
def Error.ToGRPC (e : Error) : GrpcError :=
  ⟨e.StatusCode, String.mk (wireMarshalChars e)⟩

/-- The fields of the anonymous struct of `MarshalJSON`
(`meta,omitempty`, `msg,omitempty`, `error_id`, `status_code`). -/
def jsonFields (e : Error) : List (String × List Char) :=
  (if e.Meta = [] then [] else [("meta", printMetaObj e.Meta)]) ++
  (if e.Message = "" then [] else [("msg", encodeStr e.Message)]) ++
  [("error_id", encodeStr (codeStr e.StatusCode)),
   ("status_code", intChars e.StatusCode)]

/-- Go `(e *Error) MarshalJSON()`. -/
def Error.MarshalJSON (e : Error) : String :=
  String.mk ('\x7b' :: printFields (jsonFields e) ++ ['\x7d'])

/-- Per-character escaping of Go's `%q` verb on a string value (printable
characters pass through; the exact rendering of non-ASCII classes beyond
the standard escapes is immaterial to the claims). -/
def goEsc (c : Char) : List Char :=
  if c = '"' then ['\\', '"']
  else if c = '\\' then ['\\', '\\']
  else if c = '\n' then ['\\', 'n']
  else if c = '\r' then ['\\', 'r']
  else if c = '\t' then ['\\', 't']
  else if c.toNat < 32 then ['\\', 'x', hexChar (c.toNat / 16), hexChar (c.toNat % 16)]
  else [c]

/-- Go `fmt.Sprintf("%q", s)` for a string value. -/
def goQuote (s : String) : String := String.mk ('"' :: s.data.flatMap goEsc ++ ['"'])

/-- Go `%q` applied to an `interface{}` metadata value: strings are quoted;
for non-string scalars `fmt` emits a `%!q(...)` notice (its exact spelling
is immaterial to the claims). -/
def metaValDisplay : JVal → String
  | .jstr s => goQuote s
  | .jnum n => "%!q(int=" ++ intStr n ++ ")"
  | .jbool b => "%!q(bool=" ++ (if b then "true" else "false") ++ ")"
  | .jnull => "%!q(<nil>)"

/-- Go `(e *Error) Error()`: the display form
`status_code=<n> error_id="<id>"`, then ` msg="<message>"` if the message
is non-empty, then ` desc="<cause>"` if the internal error is non-nil,
then one ` <key>="<value>"` token per metadata entry. -/
def Error.errorString (e : Error) : String :=
  "status_code=" ++ intStr e.StatusCode ++ " error_id=" ++ goQuote (codeStr e.StatusCode)
  ++ (if e.Message = "" then "" else " msg=" ++ goQuote e.Message)
  ++ (match e.InternalError with
      | none => ""
      | some g => " desc=" ++ goQuote g.errMsg)
  ++ String.join (e.Meta.map fun kv => " " ++ kv.1 ++ "=" ++ metaValDisplay kv.2)

/-- JSON whitespace. -/
def isWs (c : Char) : Bool := c = ' ' ∨ c = '\t' ∨ c = '\n' ∨ c = '\r'

/-- Skip leading JSON whitespace. -/
def skipWs : List Char → List Char
  | [] => []
  | c :: rest => if isWs c then skipWs rest else c :: rest

/-- Value of one hexadecimal digit character. -/
def hexVal (c : Char) : Option Nat :=
  if '0' ≤ c ∧ c ≤ '9' then some (c.toNat - 48)
  else if 'a' ≤ c ∧ c ≤ 'f' then some (c.toNat - 87)
  else if 'A' ≤ c ∧ c ≤ 'F' then some (c.toNat - 55)
  else none

/-- Value of a `\uXXXX` escape body. -/
def uVal (a b c d : Char) : Option Nat :=
  match hexVal a, hexVal b, hexVal c, hexVal d with
  | some x, some y, some z, some w => some (((x * 16 + y) * 16 + z) * 16 + w)
  | _, _, _, _ => none

/-- One-character JSON escapes. -/
def escDecode (c : Char) : Option Char :=
  if c = '"' then some '"'
  else if c = '\\' then some '\\'
  else if c = '/' then some '/'
  else if c = 'b' then some (Char.ofNat 8)
  else if c = 'f' then some (Char.ofNat 12)
  else if c = 'n' then some '\n'
  else if c = 'r' then some '\r'
  else if c = 't' then some '\t'
  else none

/-- Recognize a `\uXXXX` escape denoting a low surrogate at the head of the
input, yielding its value and the remaining input. -/
def lowSurr : List Char → Option (Nat × List Char)
  | '\\' :: 'u' :: g1 :: g2 :: g3 :: g4 :: rest =>
    match uVal g1 g2 g3 g4 with
    | some m => if 56320 ≤ m ∧ m ≤ 57343 then some (m, rest) else none
    | none => none
  | _ => none

/-- JSON string body decoder (after the opening quote), driven by fuel (one
unit per decoded character; any fuel above the input length is enough):
returns the decoded characters and the input after the closing quote.
Follows Go `encoding/json`: raw control characters are a syntax error,
surrogate pairs in `\u` escapes combine, and unpaired surrogates become
U+FFFD. -/
def parseStrAux : Nat → List Char → Option (List Char × List Char)
  | 0, _ => none
  | _, [] => none
  | fuel + 1, c :: rest =>
    if c = '"' then some ([], rest)
    else if c = '\\' then
      match rest with
      | 'u' :: h1 :: h2 :: h3 :: h4 :: rest2 =>
        match uVal h1 h2 h3 h4 with
        | none => none
        | some n =>
          if 55296 ≤ n ∧ n ≤ 56319 then
            match lowSurr rest2 with
            | some (m, rest3) =>
              (parseStrAux fuel rest3).map fun p =>
                (Char.ofNat (65536 + (n - 55296) * 1024 + (m - 56320)) :: p.1, p.2)
            | none => (parseStrAux fuel rest2).map fun p => (Char.ofNat 65533 :: p.1, p.2)
          else if 56320 ≤ n ∧ n ≤ 57343 then
            (parseStrAux fuel rest2).map fun p => (Char.ofNat 65533 :: p.1, p.2)
          else
            (parseStrAux fuel rest2).map fun p => (Char.ofNat n :: p.1, p.2)
      | e :: rest2 =>
        match escDecode e with
        | none => none
        | some c2 => (parseStrAux fuel rest2).map fun p => (c2 :: p.1, p.2)
      | [] => none
    else if c.toNat < 32 then none
    else (parseStrAux fuel rest).map fun p => (c :: p.1, p.2)

/-- JSON string body decoder with enough fuel for its input. -/
def parseStr (l : List Char) : Option (List Char × List Char) :=
  parseStrAux (l.length + 1) l

/-- Decimal digit predicate. -/
def isDigit (c : Char) : Bool := '0' ≤ c ∧ c ≤ '9'

/-- Consume decimal digits, accumulating their value. -/
def digitsLoop : List Char → Nat → Nat × List Char
  | [], acc => (acc, [])
  | c :: rest, acc =>
    if isDigit c then digitsLoop rest (acc * 10 + (c.toNat - 48)) else (acc, c :: rest)

/-- Parse a JSON natural-number literal (no leading zeros, per the JSON
grammar Go enforces). -/
def parseNatNum : List Char → Option (Nat × List Char)
  | [] => none
  | c :: rest =>
    if c = '0' then
      match rest with
      | c2 :: _ => if isDigit c2 then none else some (0, rest)
      | [] => some (0, [])
    else if isDigit c then some (digitsLoop rest (c.toNat - 48))
    else none

/-- Parse a JSON integer literal (fractional and exponent forms are outside
this model, see the header). -/
def parseNum (l : List Char) : Option (Int × List Char) :=
  match l with
  | '-' :: rest => (parseNatNum rest).map fun p => (-(p.1 : Int), p.2)
  | _ => (parseNatNum l).map fun p => ((p.1 : Int), p.2)

/-- Parse a JSON scalar value. -/
def parseScalar : List Char → Option (JVal × List Char)
  | [] => none
  | c :: rest =>
    if c = '"' then (parseStr rest).map fun p => (JVal.jstr (String.mk p.1), p.2)
    else if c = 't' then
      match rest with
      | 'r' :: 'u' :: 'e' :: r => some (JVal.jbool true, r)
      | _ => none
    else if c = 'f' then
      match rest with
      | 'a' :: 'l' :: 's' :: 'e' :: r => some (JVal.jbool false, r)
      | _ => none
    else if c = 'n' then
      match rest with
      | 'u' :: 'l' :: 'l' :: r => some (JVal.jnull, r)
      | _ => none
    else if c = '-' ∨ isDigit c then (parseNum (c :: rest)).map fun p => (JVal.jnum p.1, p.2)
    else none

/-- Field loop of unmarshaling a JSON object into a `Meta` map (called
after the opening brace, expecting the first key): each `"key":value`
pair is assigned into the accumulated map, matching Go's map unmarshal
(later duplicate keys overwrite, existing keys of a non-nil map are
kept). -/
def parseMetaFields : Nat → List Char → Meta → Option (Meta × List Char)
  | 0, _, _ => none
  | fuel + 1, l, acc =>
    match skipWs l with
    | '"' :: rest =>
      match parseStr rest with
      | none => none
      | some (kChars, rest2) =>
        match skipWs rest2 with
        | ':' :: rest3 =>
          match parseScalar (skipWs rest3) with
          | none => none
          | some (v, rest4) =>
            match skipWs rest4 with
            | ',' :: rest5 => parseMetaFields fuel rest5 (metaInsert (String.mk kChars) v acc)
            | '\x7d' :: rest5 => some (metaInsert (String.mk kChars) v acc, rest5)
            | _ => none
        | _ => none
    | _ => none

/-- Unmarshal a JSON object (or `null`) into a `Meta` map starting from the
current map `acc` (Go merges an unmarshaled object into a non-nil map and
leaves the map untouched on `null`). -/
def parseMetaObj (fuel : Nat) (l : List Char) (acc : Meta) : Option (Meta × List Char) :=
  match l with
  | '\x7b' :: rest =>
    match skipWs rest with
    | '\x7d' :: rest2 => some (acc, rest2)
    | _ => parseMetaFields fuel rest acc
  | 'n' :: 'u' :: 'l' :: 'l' :: rest => some (acc, rest)
  | _ => none

/-- The target of `FromGRPC`'s `json.Unmarshal`: the decoded fields of the
anonymous `raw` struct (its `InternalError error` field can only ever be
left nil, since unmarshaling any non-null value into the `error` interface
fails). -/
structure RawWire where
  meta : Meta
  msg : String
deriving DecidableEq

/-- Field loop of unmarshaling the wire description into the `raw` struct
of `FromGRPC` (called expecting a key): `meta` takes an object or `null`,
`msg` takes a string or `null`, `internal_error` admits only `null`
(unmarshaling anything else into the `error` interface is an error), and
unknown keys have their value skipped (scalar values in this model).
Go reports type errors at the end of `Unmarshal`; since `FromGRPC` only
tests the error for nil, failing immediately is observationally equal. -/
def parseWireFields : Nat → List Char → RawWire → Option (RawWire × List Char)
  | 0, _, _ => none
  | fuel + 1, l, st =>
    match skipWs l with
    | '"' :: rest =>
      match parseStr rest with
      | none => none
      | some (kChars, rest2) =>
        match skipWs rest2 with
        | ':' :: rest3 =>
          let k := String.mk kChars
          let vstart := skipWs rest3
          let step : Option (RawWire × List Char) :=
            if k = "meta" then
              (parseMetaObj fuel vstart st.meta).map fun p => (⟨p.1, st.msg⟩, p.2)
            else if k = "msg" then
              match vstart with
              | 'n' :: 'u' :: 'l' :: 'l' :: r => some (st, r)
              | '"' :: r => (parseStr r).map fun p => (⟨st.meta, String.mk p.1⟩, p.2)
              | _ => none
            else if k = "internal_error" then
              match vstart with
              | 'n' :: 'u' :: 'l' :: 'l' :: r => some (st, r)
              | _ => none
            else
              (parseScalar vstart).map fun p => (st, p.2)
          match step with
          | none => none
          | some (st2, rest4) =>
            match skipWs rest4 with
            | ',' :: rest5 => parseWireFields fuel rest5 st2
            | '\x7d' :: rest5 => some (st2, rest5)
            | _ => none
        | _ => none
    | _ => none

/-- Model of `json.Unmarshal([]byte(desc), &raw)` in `FromGRPC`: `none` is
a non-nil unmarshal error.  The top-level value must be an object (or
`null`, which unmarshals into a struct as a no-op) with nothing but
whitespace after it. -/
def parseWire (s : String) : Option RawWire :=
  match skipWs s.data with
  | '\x7b' :: rest =>
    match skipWs rest with
    | '\x7d' :: rest2 => if skipWs rest2 = [] then some ⟨[], ""⟩ else none
    | _ =>
      match parseWireFields (s.data.length + 1) rest ⟨[], ""⟩ with
      | none => none
      | some (st, rest2) => if skipWs rest2 = [] then some st else none
  | 'n' :: 'u' :: 'l' :: 'l' :: rest => if skipWs rest = [] then some ⟨[], ""⟩ else none
  | _ => none

/-- Go `FromGRPC(err)`: decode the gRPC status code and description; on a
failed unmarshal fall back to `InternalServerFromError(err, "unexpected
error")`. -/
def FromGRPC (g : GrpcError) : Error :=
  match parseWire g.desc with
  | none => InternalServerFromError (some (GoErr.grpcE g.code g.desc)) "unexpected error" []
  | some raw => ⟨g.code, raw.meta, raw.msg, none⟩

/-- A Go `error` value handed to `BuildError`: either already a `*Error`
or some other error value. -/
inductive AnyError where
  | structured (e : Error)
  | other (g : GoErr)
deriving DecidableEq

/-- Go `BuildError(err)` (utils.go): nil maps to nil, a `*Error` is
returned as-is, and anything else is wrapped via
`InternalServerFromError(err, "unexpected error")`. -/
def BuildError : Option AnyError → Option Error
  | none => none
  | some (.structured e) => some e
  | some (.other g) => some (InternalServerFromError (some g) "unexpected error" [])

/-! ### Canonical metadata maps -/

theorem charsLt_irrefl : ∀ (l : List Char), charsLt l l = false := by
  intro l
  induction l with
  | nil => rfl
  | cons a as ih => simp [charsLt, lt_irrefl a, ih]

theorem charsLt_trans : ∀ (a b c : List Char), charsLt a b = true → charsLt b c = true →
    charsLt a c = true := by
  intro a
  induction a with
  | nil =>
    intro b c h1 h2
    cases b with
    | nil => simp [charsLt] at h1
    | cons b bs =>
      cases c with
      | nil => simp [charsLt] at h2
      | cons c cs => simp [charsLt]
  | cons a as ih =>
    intro b c h1 h2
    cases b with
    | nil => simp [charsLt] at h1
    | cons b bs =>
      cases c with
      | nil => simp [charsLt] at h2
      | cons c cs =>
        by_cases hab : a < b
        · by_cases hbc : b < c
          · simp [charsLt, lt_trans hab hbc]
          · by_cases hcb : c < b
            · simp [charsLt, hbc, hcb] at h2
            · have hbc2 : b = c := by
                rcases lt_trichotomy b c with h3 | h3 | h3
                · exact absurd h3 hbc
                · exact h3
                · exact absurd h3 hcb
              subst hbc2
              simp [charsLt, hab]
        · by_cases hba : b < a
          · simp [charsLt, hab, hba] at h1
          · have hab2 : a = b := by
              rcases lt_trichotomy a b with h3 | h3 | h3
              · exact absurd h3 hab
              · exact h3
              · exact absurd h3 hba
            subst hab2
            simp only [charsLt, lt_irrefl a, if_false] at h1
            by_cases hac : a < c
            · simp [charsLt, hac]
            · by_cases hca : c < a
              · simp [charsLt, hac, hca] at h2
              · simp only [charsLt, hac, hca, if_false] at h2 ⊢
                exact ih bs cs h1 h2

theorem charsLt_total : ∀ (a b : List Char), ¬ a = b →
    charsLt a b = true ∨ charsLt b a = true := by
  intro a
  induction a with
  | nil =>
    intro b hne
    cases b with
    | nil => exact absurd rfl hne
    | cons b bs => left; simp [charsLt]
  | cons a as ih =>
    intro b hne
    cases b with
    | nil => right; simp [charsLt]
    | cons b bs =>
      by_cases hab : a < b
      · left; simp [charsLt, hab]
      · by_cases hba : b < a
        · right; simp [charsLt, hba]
        · have hab2 : a = b := by
            rcases lt_trichotomy a b with h3 | h3 | h3
            · exact absurd h3 hab
            · exact h3
            · exact absurd h3 hba
          subst hab2
          have hne2 : ¬ as = bs := fun he => hne (by rw [he])
          rcases ih bs hne2 with h | h
          · left; simp [charsLt, lt_irrefl a, h]
          · right; simp [charsLt, lt_irrefl a, h]

theorem strLt_irrefl (a : String) : strLt a a = false := charsLt_irrefl a.data

theorem strLt_trans {a b c : String} (h1 : strLt a b = true) (h2 : strLt b c = true) :
    strLt a c = true := charsLt_trans a.data b.data c.data h1 h2

theorem strLt_total {a b : String} (hne : ¬ a = b) :
    strLt a b = true ∨ strLt b a = true := by
  refine charsLt_total a.data b.data fun he => hne ?_
  cases a
  cases b
  cases he
  rfl

theorem strLt_ne {a b : String} (h : strLt a b = true) : ¬ a = b := by
  intro he
  subst he
  rw [strLt_irrefl] at h
  cases h

theorem strLt_asymm {a b : String} (h : strLt a b = true) : ¬ strLt b a = true := by
  intro h2
  have := strLt_trans h h2
  rw [strLt_irrefl] at this
  cases this

/-- A metadata association list is canonical when its keys are strictly
increasing: the unique list representation of a Go map. -/
def MCanon (m : Meta) : Prop := m.Pairwise (fun a b => strLt a.1 b.1 = true)

theorem mem_metaInsert : ∀ {m : Meta} {p : String × JVal} {k : String} {v : JVal},
    p ∈ metaInsert k v m → p = (k, v) ∨ p ∈ m := by
  intro m
  induction m with
  | nil => intro p k v h; simpa [metaInsert] using h
  | cons hd tl ih =>
    intro p k v h
    obtain ⟨k2, v2⟩ := hd
    simp only [metaInsert] at h
    by_cases h1 : k = k2
    · rw [if_pos h1] at h
      rcases List.mem_cons.mp h with h2 | h2
      · exact Or.inl h2
      · exact Or.inr (List.mem_cons_of_mem _ h2)
    · rw [if_neg h1] at h
      by_cases h2 : strLt k k2 = true
      · rw [if_pos h2] at h
        rcases List.mem_cons.mp h with h3 | h3
        · exact Or.inl h3
        · exact Or.inr h3
      · rw [if_neg h2] at h
        rcases List.mem_cons.mp h with h3 | h3
        · exact Or.inr (by simp [h3])
        · rcases ih h3 with h4 | h4
          · exact Or.inl h4
          · exact Or.inr (List.mem_cons_of_mem _ h4)

theorem metaInsert_canon : ∀ {m : Meta} {k : String} {v : JVal}, MCanon m →
    MCanon (metaInsert k v m) := by
  intro m
  induction m with
  | nil => intro k v _; simp [MCanon, metaInsert]
  | cons hd tl ih =>
    intro k v h
    obtain ⟨k2, v2⟩ := hd
    simp only [MCanon, List.pairwise_cons] at h
    obtain ⟨hlt, htl⟩ := h
    simp only [metaInsert]
    by_cases h1 : k = k2
    · rw [if_pos h1]
      simp only [MCanon, List.pairwise_cons]
      exact ⟨fun b hb => by rw [h1]; exact hlt b hb, htl⟩
    · rw [if_neg h1]
      by_cases h2 : strLt k k2 = true
      · rw [if_pos h2]
        simp only [MCanon, List.pairwise_cons]
        refine ⟨fun b hb => ?_, hlt, htl⟩
        rcases List.mem_cons.mp hb with h3 | h3
        · rw [h3]; exact h2
        · exact strLt_trans h2 (hlt b h3)
      · rw [if_neg h2]
        have hk2 : strLt k2 k = true := by
          rcases strLt_total h1 with h3 | h3
          · exact absurd h3 h2
          · exact h3
        simp only [MCanon, List.pairwise_cons]
        refine ⟨fun b hb => ?_, ih htl⟩
        rcases mem_metaInsert hb with h3 | h3
        · rw [h3]; exact hk2
        · exact hlt b h3

theorem metaInsert_append {k : String} {v : JVal} {m : Meta}
    (h : ∀ p ∈ m, strLt p.1 k = true) : metaInsert k v m = m ++ [(k, v)] := by
  induction m with
  | nil => simp [metaInsert]
  | cons hd tl ih =>
    obtain ⟨k2, v2⟩ := hd
    have hk2 : strLt k2 k = true := h (k2, v2) (List.mem_cons_self _ _)
    have hne : ¬ k = k2 := fun he => strLt_ne hk2 he.symm
    have hnlt : ¬ strLt k k2 = true := strLt_asymm hk2
    simp only [metaInsert, if_neg hne, if_neg hnlt, List.cons_append, List.cons.injEq, true_and]
    exact ih fun p hp => h p (List.mem_cons_of_mem _ hp)

theorem reinsert_sorted : ∀ (m acc : Meta), MCanon (acc ++ m) →
    m.foldl (fun a kv => metaInsert kv.1 kv.2 a) acc = acc ++ m := by
  intro m
  induction m with
  | nil => intro acc _; simp
  | cons hd tl ih =>
    intro acc h
    obtain ⟨k, v⟩ := hd
    have hlt : ∀ p ∈ acc, strLt p.1 k = true := by
      rw [MCanon, List.pairwise_append] at h
      intro p hp
      exact h.2.2 p hp (k, v) (List.mem_cons_self _ _)
    have hstep : metaInsert k v acc = acc ++ [(k, v)] := metaInsert_append hlt
    simp only [List.foldl_cons, hstep]
    have h2 : MCanon ((acc ++ [(k, v)]) ++ tl) := by
      simpa [MCanon, List.append_assoc] using h
    rw [ih (acc ++ [(k, v)]) h2]
    simp [List.append_assoc]

theorem mergeMeta_canon : ∀ (m params : Meta), MCanon params →
    MCanon (mergeMeta params m) := by
  intro m
  induction m with
  | nil => intro params h; simpa [mergeMeta] using h
  | cons hd tl ih =>
    intro params h
    have hstep : mergeMeta params (hd :: tl) = mergeMeta (metaInsert hd.1 hd.2 params) tl := by
      simp [mergeMeta]
    rw [hstep]
    exact ih _ (metaInsert_canon h)

theorem applySetters_canon (ms : List Meta) :
    MCanon (applySetters (ms.map SetMeta)) := by
  rw [applySetters]
  have h : ∀ (params : Meta), MCanon params →
      MCanon ((ms.map SetMeta).foldl (fun m f => f m) params) := by
    induction ms with
    | nil => intro params h; simpa using h
    | cons hd tl ih =>
      intro params h
      simp only [List.map_cons, List.foldl_cons]
      exact ih _ (mergeMeta_canon hd params h)
  exact h [] (by simp [MCanon])

theorem metaFind_metaInsert (m : Meta) (k : String) (v : JVal) (k2 : String) :
    metaFind (metaInsert k v m) k2 = if k2 = k then some v else metaFind m k2 := by
  induction m with
  | nil => simp [metaInsert, metaFind]
  | cons hd tl ih =>
    obtain ⟨k3, v3⟩ := hd
    simp only [metaInsert]
    split
    · rename_i hk
      subst hk
      simp only [metaFind]
      split <;> simp_all [metaFind]
    · split
      · simp [metaFind]
      · rename_i hk hklt
        simp only [metaFind, ih]
        split
        · rename_i h3
          have : ¬ k2 = k := fun he => hk (he.symm.trans h3)
          simp [this]
        · rfl

theorem metaFind_eq_none {m : Meta} {k : String}
    (h : k ∉ m.map Prod.fst) : metaFind m k = none := by
  induction m with
  | nil => rfl
  | cons hd tl ih =>
    simp only [List.map_cons, List.mem_cons] at h
    push_neg at h
    simp only [metaFind, if_neg h.1]
    exact ih h.2

theorem metaFind_mergeMeta : ∀ (m params : Meta), (m.map Prod.fst).Nodup →
    ∀ k, metaFind (mergeMeta params m) k =
      match metaFind m k with
      | some v => some v
      | none => metaFind params k := by
  intro m
  induction m with
  | nil => intro params _ k; simp [mergeMeta, metaFind]
  | cons hd tl ih =>
    intro params hnd k
    obtain ⟨k1, v1⟩ := hd
    simp only [List.map_cons, List.nodup_cons] at hnd
    have step : mergeMeta params ((k1, v1) :: tl) = mergeMeta (metaInsert k1 v1 params) tl := by
      simp [mergeMeta]
    rw [step, ih (metaInsert k1 v1 params) hnd.2 k]
    by_cases hk : k = k1
    · subst hk
      have : metaFind tl k = none := metaFind_eq_none hnd.1
      simp [this, metaFind, metaFind_metaInsert]
    · simp only [metaFind, if_neg hk]
      cases metaFind tl k with
      | none => simp [metaFind_metaInsert, hk]
      | some v => simp

/-! ### Decimal digits: printing and reading back -/

theorem natCharsAux_acc : ∀ (fuel n : Nat) (acc : List Char),
    natCharsAux fuel n acc = natCharsAux fuel n [] ++ acc := by
  intro fuel
  induction fuel with
  | zero => intro n acc; simp [natCharsAux]
  | succ fuel ih =>
    intro n acc
    simp only [natCharsAux]
    split
    · simp
    · rw [ih (n / 10) [digitChar (n % 10)], ih (n / 10) (digitChar (n % 10) :: acc)]
      simp

theorem natCharsAux_extra : ∀ (n f1 f2 : Nat), n < f1 → n < f2 →
    natCharsAux f1 n [] = natCharsAux f2 n [] := by
  intro n
  induction n using Nat.strongRecOn with
  | _ n ih =>
    intro f1 f2 h1 h2
    cases f1 with
    | zero => omega
    | succ g1 =>
      cases f2 with
      | zero => omega
      | succ g2 =>
        simp only [natCharsAux]
        split
        · rfl
        · rw [natCharsAux_acc g1, natCharsAux_acc g2,
            ih (n / 10) (by omega) g1 g2 (by omega) (by omega)]

theorem natChars_lt10 {n : Nat} (h : n < 10) : natChars n = [digitChar n] := by
  simp [natChars, natCharsAux, h]

theorem natChars_ge10 {n : Nat} (h : 10 ≤ n) :
    natChars n = natChars (n / 10) ++ [digitChar (n % 10)] := by
  have h1 : ¬ n < 10 := by omega
  conv_lhs => rw [natChars]
  simp only [natCharsAux, h1, if_false]
  rw [natCharsAux_acc n (n / 10)]
  rw [natCharsAux_extra (n / 10) n (n / 10 + 1) (by omega) (by omega)]
  rfl

theorem digitChar_isDigit {n : Nat} (h : n < 10) : isDigit (digitChar n) = true := by
  interval_cases n <;> decide

theorem digitChar_val {n : Nat} (h : n < 10) : (digitChar n).toNat - 48 = n := by
  interval_cases n <;> decide

theorem natChars_all_digits : ∀ n, ∀ c ∈ natChars n, isDigit c = true := by
  intro n
  induction n using Nat.strongRecOn with
  | _ n ih =>
    intro c hc
    by_cases h : n < 10
    · rw [natChars_lt10 h] at hc
      simp only [List.mem_singleton] at hc
      exact hc ▸ digitChar_isDigit h
    · rw [natChars_ge10 (by omega)] at hc
      rcases List.mem_append.mp hc with h2 | h2
      · exact ih (n / 10) (by omega) c h2
      · simp only [List.mem_singleton] at h2
        exact h2 ▸ digitChar_isDigit (Nat.mod_lt n (by omega))

theorem digitsLoop_stop {c : Char} (h : isDigit c = false) (rest : List Char) (acc : Nat) :
    digitsLoop (c :: rest) acc = (acc, c :: rest) := by
  simp [digitsLoop, h]

theorem digitsLoop_digits : ∀ (ds : List Char), (∀ c ∈ ds, isDigit c = true) →
    ∀ (rest : List Char) (acc : Nat),
    digitsLoop (ds ++ rest) acc =
      digitsLoop rest (ds.foldl (fun a c => a * 10 + (c.toNat - 48)) acc) := by
  intro ds
  induction ds with
  | nil => intro _ rest acc; simp
  | cons c tl ih =>
    intro h rest acc
    have hc : isDigit c = true := h c (List.mem_cons_self _ _)
    simp only [List.cons_append, digitsLoop, hc, if_true, List.foldl_cons]
    exact ih (fun c2 h2 => h c2 (List.mem_cons_of_mem _ h2)) rest _

theorem natChars_foldl : ∀ (n : Nat), ∀ (acc : Nat),
    (natChars n).foldl (fun a c => a * 10 + (c.toNat - 48)) acc =
      acc * 10 ^ (natChars n).length + n := by
  intro n
  induction n using Nat.strongRecOn with
  | _ n ih =>
    intro acc
    by_cases h : n < 10
    · rw [natChars_lt10 h]
      simp [digitChar_val h]
    · rw [natChars_ge10 (by omega)]
      rw [List.foldl_append, ih (n / 10) (by omega) acc]
      simp only [List.foldl_cons, List.foldl_nil, List.length_append, List.length_cons,
        List.length_nil]
      rw [digitChar_val (Nat.mod_lt n (by omega))]
      rw [Nat.pow_succ]
      have : acc * (10 ^ (natChars (n / 10)).length * 10) =
          acc * 10 ^ (natChars (n / 10)).length * 10 := by ring
      rw [this]
      omega

theorem natChars_head_pos : ∀ {n : Nat}, 1 ≤ n →
    ∃ c r, natChars n = c :: r ∧ isDigit c = true ∧ ¬ c = '0' := by
  intro n
  induction n using Nat.strongRecOn with
  | _ n ih =>
    intro h1
    by_cases h : n < 10
    · refine ⟨digitChar n, [], natChars_lt10 h, digitChar_isDigit h, ?_⟩
      interval_cases n <;> decide
    · obtain ⟨c, r, hcr, hdig, hne⟩ := ih (n / 10) (by omega) (by omega)
      exact ⟨c, r ++ [digitChar (n % 10)], by rw [natChars_ge10 (by omega), hcr]; rfl, hdig, hne⟩

/-- Whether the head of the input (if any) is not a decimal digit: the
condition under which a number literal ends there. -/
def noDigitHead : List Char → Bool
  | [] => true
  | c :: _ => !(isDigit c)

theorem digitsLoop_noDigit {rest : List Char} (h : noDigitHead rest = true) (acc : Nat) :
    digitsLoop rest acc = (acc, rest) := by
  cases rest with
  | nil => rfl
  | cons c tl =>
    simp only [noDigitHead, Bool.not_eq_true'] at h
    exact digitsLoop_stop h tl acc

theorem parseNatNum_natChars (n : Nat) (rest : List Char) (h : noDigitHead rest = true) :
    parseNatNum (natChars n ++ rest) = some (n, rest) := by
  by_cases h0 : n = 0
  · subst h0
    rw [natChars_lt10 (by omega)]
    show parseNatNum ('0' :: rest) = some (0, rest)
    cases rest with
    | nil => rfl
    | cons c tl =>
      simp only [noDigitHead, Bool.not_eq_true'] at h
      simp [parseNatNum, h]
  · obtain ⟨c, r, hcr, hdig, hne⟩ := natChars_head_pos (n := n) (by omega)
    rw [hcr]
    have hdigs : ∀ c2 ∈ r, isDigit c2 = true := by
      intro c2 h2
      exact natChars_all_digits n c2 (by rw [hcr]; exact List.mem_cons_of_mem _ h2)
    have hc0 : ¬ c = '0' := hne
    simp only [List.cons_append, parseNatNum, if_neg hc0, hdig, if_true]
    rw [digitsLoop_digits r hdigs rest (c.toNat - 48)]
    rw [digitsLoop_noDigit h]
    have hval : r.foldl (fun a c => a * 10 + (c.toNat - 48)) (c.toNat - 48) = n := by
      have h2 := natChars_foldl n 0
      rw [hcr] at h2
      simpa using h2
    rw [hval]

theorem isDigit_ne_minus {c : Char} (h : isDigit c = true) : ¬ c = '-' := by
  intro he
  subst he
  simp [isDigit] at h

theorem natChars_cons : ∀ (n : Nat), ∃ c r, natChars n = c :: r ∧ isDigit c = true := by
  intro n
  by_cases h : n < 10
  · exact ⟨digitChar n, [], natChars_lt10 h, digitChar_isDigit h⟩
  · obtain ⟨c, r, hcr, hdig, _⟩ := natChars_head_pos (n := n) (by omega)
    exact ⟨c, r, hcr, hdig⟩

theorem parseNum_intChars (n : Int) (rest : List Char) (h : noDigitHead rest = true) :
    parseNum (intChars n ++ rest) = some (n, rest) := by
  by_cases hneg : n < 0
  · have : intChars n = '-' :: natChars n.natAbs := by simp [intChars, hneg]
    rw [this]
    show parseNum ('-' :: (natChars n.natAbs ++ rest)) = some (n, rest)
    simp only [parseNum, parseNatNum_natChars n.natAbs rest h]
    have h2 : -(n.natAbs : Int) = n := by omega
    rw [Option.map_some', h2]
  · have h1 : intChars n = natChars n.toNat := by simp [intChars, hneg]
    rw [h1]
    obtain ⟨c, r, hcr, hdig⟩ := natChars_cons n.toNat
    rw [hcr]
    have hcm : ¬ c = '-' := isDigit_ne_minus hdig
    show parseNum (c :: (r ++ rest)) = some (n, rest)
    rw [parseNum]
    · rw [← List.cons_append, ← hcr, parseNatNum_natChars n.toNat rest h]
      have h2 : (n.toNat : Int) = n := Int.toNat_of_nonneg (by omega)
      rw [Option.map_some', h2]
    · intro rest1 heq
      injection heq with heqh _
      exact hcm heqh

/-! ### JSON string escaping: printing and reading back -/

theorem hexVal_hexChar {n : Nat} (h : n < 16) : hexVal (hexChar n) = some n := by
  interval_cases n <;> decide

theorem parseStrAux_u00 (t : Nat) (ht : t < 32) (fuel : Nat) (RR : List Char) :
    parseStrAux (fuel + 1) ('\\' :: 'u' :: '0' :: '0' :: hexChar (t / 16) :: hexChar (t % 16) :: RR)
      = (parseStrAux fuel RR).map fun p => (Char.ofNat t :: p.1, p.2) := by
  have hv : uVal '0' '0' (hexChar (t / 16)) (hexChar (t % 16)) = some t := by
    rw [uVal, hexVal_hexChar (show t / 16 < 16 by omega), hexVal_hexChar (show t % 16 < 16 by omega)]
    show some (((0 * 16 + 0) * 16 + t / 16) * 16 + t % 16) = some t
    congr 1
    omega
  have h1 : ¬ (55296 ≤ t ∧ t ≤ 56319) := by omega
  have h2 : ¬ (56320 ≤ t ∧ t ≤ 57343) := by omega
  simp [parseStrAux, hv, h1, h2]

theorem parseStrAux_uEsc (a b c d : Char) (t : Nat) (hv : uVal a b c d = some t)
    (h1 : ¬ (55296 ≤ t ∧ t ≤ 56319)) (h2 : ¬ (56320 ≤ t ∧ t ≤ 57343))
    (fuel : Nat) (RR : List Char) :
    parseStrAux (fuel + 1) ('\\' :: 'u' :: a :: b :: c :: d :: RR)
      = (parseStrAux fuel RR).map fun p => (Char.ofNat t :: p.1, p.2) := by
  simp [parseStrAux, hv, h1, h2]

theorem parseStrAux_esc : ∀ (l : List Char) (fuel : Nat) (rest : List Char),
    parseStrAux (l.length + fuel + 1) (l.flatMap escChar ++ '"' :: rest) = some (l, rest) := by
  intro l
  induction l with
  | nil => intro fuel rest; simp [parseStrAux]
  | cons c tl ih =>
    intro fuel rest
    have hIH := ih fuel rest
    have harith : (c :: tl).length + fuel + 1 = (tl.length + fuel + 1) + 1 := by
      simp only [List.length_cons]
      omega
    rw [harith]
    simp only [List.flatMap_cons, List.append_assoc]
    by_cases h1 : c = '"'
    · subst h1; simp [escChar, parseStrAux, escDecode, hIH]
    by_cases h2 : c = '\\'
    · subst h2; simp [escChar, parseStrAux, escDecode, hIH]
    by_cases h3 : c = '\n'
    · subst h3; simp [escChar, parseStrAux, escDecode, hIH]
    by_cases h4 : c = '\r'
    · subst h4; simp [escChar, parseStrAux, escDecode, hIH]
    by_cases h5 : c = '\t'
    · subst h5; simp [escChar, parseStrAux, escDecode, hIH]
    by_cases h6 : c.toNat < 32
    · simp only [escChar, if_neg h1, if_neg h2, if_neg h3, if_neg h4, if_neg h5, if_pos h6,
        List.cons_append, List.nil_append]
      rw [parseStrAux_u00 c.toNat h6 (tl.length + fuel + 1) (tl.flatMap escChar ++ '"' :: rest)]
      rw [hIH, Char.ofNat_toNat]
      rfl
    by_cases h7 : c = '<'
    · subst h7; simp [escChar, parseStrAux, uVal, hexVal, hIH]
    by_cases h8 : c = '>'
    · subst h8; simp [escChar, parseStrAux, uVal, hexVal, hIH]
    by_cases h9 : c = '&'
    · subst h9; simp [escChar, parseStrAux, uVal, hexVal, hIH]
    by_cases h10 : c.toNat = 8232
    · simp only [escChar, if_neg h1, if_neg h2, if_neg h3, if_neg h4, if_neg h5, if_neg h6,
        if_neg h7, if_neg h8, if_neg h9, if_pos h10, List.cons_append, List.nil_append]
      rw [parseStrAux_uEsc '2' '0' '2' '8' 8232 (by decide) (by omega) (by omega)
        (tl.length + fuel + 1) (tl.flatMap escChar ++ '"' :: rest)]
      rw [hIH]
      have hc : Char.ofNat 8232 = c := by rw [← h10]; exact Char.ofNat_toNat c
      rw [Option.map_some', hc]
    by_cases h11 : c.toNat = 8233
    · simp only [escChar, if_neg h1, if_neg h2, if_neg h3, if_neg h4, if_neg h5, if_neg h6,
        if_neg h7, if_neg h8, if_neg h9, if_neg h10, if_pos h11, List.cons_append, List.nil_append]
      rw [parseStrAux_uEsc '2' '0' '2' '9' 8233 (by decide) (by omega) (by omega)
        (tl.length + fuel + 1) (tl.flatMap escChar ++ '"' :: rest)]
      rw [hIH]
      have hc : Char.ofNat 8233 = c := by rw [← h11]; exact Char.ofNat_toNat c
      rw [Option.map_some', hc]
    · simp only [escChar, if_neg h1, if_neg h2, if_neg h3, if_neg h4, if_neg h5, if_neg h6,
        if_neg h7, if_neg h8, if_neg h9, if_neg h10, if_neg h11, List.cons_append,
        List.nil_append, List.singleton_append]
      simp [parseStrAux, h1, h2, h6, hIH]

set_option maxHeartbeats 1000000 in
theorem escChar_length_pos (c : Char) : 1 ≤ (escChar c).length := by
  unfold escChar
  split_ifs <;> simp only [List.length_cons, List.length_nil] <;> omega

theorem flatMap_escChar_length (l : List Char) : l.length ≤ (l.flatMap escChar).length := by
  induction l with
  | nil => simp
  | cons c tl ih =>
    simp only [List.flatMap_cons, List.length_append, List.length_cons]
    have := escChar_length_pos c
    omega

theorem parseStr_esc (l rest : List Char) :
    parseStr (l.flatMap escChar ++ '"' :: rest) = some (l, rest) := by
  rw [parseStr]
  have hlen : l.length ≤ (l.flatMap escChar ++ '"' :: rest).length := by
    have := flatMap_escChar_length l
    simp only [List.length_append, List.length_cons]
    omega
  obtain ⟨k, hk⟩ : ∃ k, (l.flatMap escChar ++ '"' :: rest).length + 1 = l.length + k + 1 :=
    ⟨(l.flatMap escChar ++ '"' :: rest).length - l.length, by omega⟩
  rw [hk]
  exact parseStrAux_esc l k rest

theorem isDigit_not_ws {c : Char} (h : isDigit c = true) : isWs c = false := by
  simp only [isWs, decide_eq_false_iff_not]
  intro hor
  rcases hor with he | he | he | he <;> (subst he; exact absurd h (by decide))

theorem skipWs_not_ws {c : Char} (h : isWs c = false) (l : List Char) :
    skipWs (c :: l) = c :: l := by
  simp [skipWs, h]

theorem parseScalar_encode (v : JVal) (rest : List Char) (h : noDigitHead rest = true) :
    parseScalar (encodeJVal v ++ rest) = some (v, rest) := by
  cases v with
  | jstr s =>
    show parseScalar (('"' :: (s.data.flatMap escChar ++ ['"'])) ++ rest) = some (JVal.jstr s, rest)
    have hshape : ('"' :: (s.data.flatMap escChar ++ ['"'])) ++ rest
        = '"' :: (s.data.flatMap escChar ++ '"' :: rest) := by
      simp
    rw [hshape]
    simp [parseScalar, parseStr_esc s.data rest]
  | jnum n =>
    show parseScalar (intChars n ++ rest) = some (JVal.jnum n, rest)
    by_cases hneg : n < 0
    · have hi : intChars n = '-' :: natChars n.natAbs := by simp [intChars, hneg]
      rw [hi]
      show parseScalar ('-' :: (natChars n.natAbs ++ rest)) = some (JVal.jnum n, rest)
      have hp : parseNum ('-' :: (natChars n.natAbs ++ rest)) = some (n, rest) := by
        have := parseNum_intChars n rest h
        rw [hi] at this
        simpa using this
      simp [parseScalar, hp]
    · have hi : intChars n = natChars n.toNat := by simp [intChars, hneg]
      rw [hi]
      obtain ⟨c, r, hcr, hdig⟩ := natChars_cons n.toNat
      rw [hcr]
      have hq : ¬ c = '"' := fun he => by subst he; revert hdig; decide
      have ht : ¬ c = 't' := fun he => by subst he; revert hdig; decide
      have hf : ¬ c = 'f' := fun he => by subst he; revert hdig; decide
      have hn : ¬ c = 'n' := fun he => by subst he; revert hdig; decide
      have hp : parseNum (c :: (r ++ rest)) = some (n, rest) := by
        have := parseNum_intChars n rest h
        rw [hi, hcr] at this
        simpa using this
      show parseScalar (c :: (r ++ rest)) = some (JVal.jnum n, rest)
      simp [parseScalar, hq, ht, hf, hn, hdig, hp]
  | jbool b =>
    cases b <;> simp [parseScalar, encodeJVal]
  | jnull =>
    simp [parseScalar, encodeJVal]

theorem encodeJVal_skipWs (v : JVal) (rest : List Char) :
    skipWs (encodeJVal v ++ rest) = encodeJVal v ++ rest := by
  cases v with
  | jstr s =>
    show skipWs ('"' :: (s.data.flatMap escChar ++ ['"']) ++ rest) = _
    rw [List.cons_append]
    exact skipWs_not_ws (by decide) _
  | jnum n =>
    by_cases hneg : n < 0
    · have hi : intChars n = '-' :: natChars n.natAbs := by simp [intChars, hneg]
      rw [show encodeJVal (JVal.jnum n) = intChars n from rfl, hi, List.cons_append]
      exact skipWs_not_ws (by decide) _
    · have hi : intChars n = natChars n.toNat := by simp [intChars, hneg]
      rw [show encodeJVal (JVal.jnum n) = intChars n from rfl, hi]
      obtain ⟨c, r, hcr, hdig⟩ := natChars_cons n.toNat
      rw [hcr, List.cons_append]
      exact skipWs_not_ws (isDigit_not_ws hdig) _
  | jbool b =>
    cases b <;> exact skipWs_not_ws (by decide) _
  | jnull => exact skipWs_not_ws (by decide) _

theorem printFields_cons_head (k : String) (ev : List Char) (fs : List (String × List Char)) :
    ∃ X, printFields ((k, ev) :: fs) = '"' :: X := by
  cases fs with
  | nil => exact ⟨k.data.flatMap escChar ++ '"' :: (':' :: ev), by simp [printFields, encodeStr]⟩
  | cons f2 fs2 =>
    exact ⟨k.data.flatMap escChar ++ '"' :: (':' :: (ev ++ ',' :: printFields (f2 :: fs2))),
      by simp [printFields, encodeStr]⟩

theorem parseMetaFields_print : ∀ (m acc : Meta) (fuel : Nat) (rest : List Char),
    MCanon (acc ++ m) → m ≠ [] →
    parseMetaFields (m.length + fuel)
        ((printFields (m.map fun kv => (kv.1, encodeJVal kv.2))) ++ '\x7d' :: rest) acc
      = some (acc ++ m, rest) := by
  intro m
  induction m with
  | nil => intro acc fuel rest _ hne; exact absurd rfl hne
  | cons hd m2 ih =>
    intro acc fuel rest hcanon _
    obtain ⟨k, v⟩ := hd
    have hacc : ∀ q ∈ acc, strLt q.1 k = true := by
      intro q hq
      have h2 := (List.pairwise_append.mp hcanon).2.2 q hq (k, v) (List.mem_cons_self _ _)
      exact h2
    have harith : ((k, v) :: m2).length + fuel = (m2.length + fuel) + 1 := by
      simp only [List.length_cons]
      omega
    rw [harith]
    cases m2 with
    | nil =>
      have hshape : (printFields (((k, v) :: []).map fun kv => (kv.1, encodeJVal kv.2)))
            ++ '\x7d' :: rest
          = '"' :: (k.data.flatMap escChar ++ '"' :: (':' :: (encodeJVal v ++ '\x7d' :: rest))) := by
        simp [printFields, encodeStr]
      rw [hshape]
      simp only [parseMetaFields]
      rw [skipWs_not_ws (by decide)]
      simp [parseStr_esc k.data, encodeJVal_skipWs, skipWs, isWs,
        parseScalar_encode v ('\x7d' :: rest) (by simp [noDigitHead, isDigit]),
        metaInsert_append hacc]
    | cons hd2 m3 =>
      have hshape : (printFields (((k, v) :: hd2 :: m3).map fun kv => (kv.1, encodeJVal kv.2)))
            ++ '\x7d' :: rest
          = '"' :: (k.data.flatMap escChar ++ '"' :: (':' :: (encodeJVal v ++ ',' ::
              ((printFields ((hd2 :: m3).map fun kv => (kv.1, encodeJVal kv.2)))
                ++ '\x7d' :: rest)))) := by
        simp [printFields, encodeStr]
      rw [hshape]
      simp only [parseMetaFields]
      rw [skipWs_not_ws (by decide)]
      simp only [parseStr_esc k.data]
      rw [skipWs_not_ws (by decide)]
      simp only [encodeJVal_skipWs]
      rw [parseScalar_encode v _ (by simp [noDigitHead, isDigit])]
      simp only []
      rw [skipWs_not_ws (by decide)]
      have hmk : String.mk k.data = k := rfl
      have hins : metaInsert k v acc = acc ++ [(k, v)] := metaInsert_append hacc
      have hcanon2 : MCanon ((acc ++ [(k, v)]) ++ (hd2 :: m3)) := by
        simpa [List.append_assoc] using hcanon
      simp only [hmk, hins]
      rw [ih (acc ++ [(k, v)]) fuel rest hcanon2 (by simp)]
      simp [List.append_assoc]

theorem parseMetaObj_print (m : Meta) (fuel : Nat) (rest : List Char)
    (hcanon : MCanon m) :
    parseMetaObj (m.length + fuel) (printMetaObj m ++ rest) [] = some (m, rest) := by
  cases m with
  | nil => simp [printMetaObj, printFields, parseMetaObj, skipWs, isWs]
  | cons hd m2 =>
    obtain ⟨k, v⟩ := hd
    obtain ⟨X, hX⟩ := printFields_cons_head k (encodeJVal v)
      ((m2.map fun kv => (kv.1, encodeJVal kv.2)))
    have hshape : printMetaObj ((k, v) :: m2) ++ rest
        = '\x7b' :: ((printFields (((k, v) :: m2).map fun kv => (kv.1, encodeJVal kv.2)))
            ++ '\x7d' :: rest) := by
      simp [printMetaObj]
    rw [hshape]
    have hbody2 : printFields ((k, encodeJVal v) :: (m2.map fun kv => (kv.1, encodeJVal kv.2)))
          ++ '\x7d' :: rest = '"' :: (X ++ '\x7d' :: rest) := by
      rw [hX]
      rfl
    have hfields := parseMetaFields_print ((k, v) :: m2) [] fuel rest (by simpa using hcanon)
      (by simp)
    simp only [List.nil_append, List.length_cons, List.map_cons] at hfields
    rw [hbody2] at hfields
    simp [parseMetaObj, hbody2, skipWs, isWs, hfields]

theorem parseWireFields_msg (fuel : Nat) (s : String) (tail : List Char) (st : RawWire) :
    parseWireFields (fuel + 1) ((encodeStr "msg" ++ ':' :: encodeStr s) ++ tail) st
      = match skipWs tail with
        | ',' :: rest5 => parseWireFields fuel rest5 ⟨st.meta, s⟩
        | '\x7d' :: rest5 => some (⟨st.meta, s⟩, rest5)
        | _ => none := by
  have hshape : (encodeStr "msg" ++ ':' :: encodeStr s) ++ tail
      = '"' :: ("msg".data.flatMap escChar ++ '"' ::
          (':' :: ('"' :: (s.data.flatMap escChar ++ '"' :: tail)))) := by
    simp [encodeStr]
  rw [hshape]
  simp only [parseWireFields]
  rw [skipWs_not_ws (by decide)]
  have hne1 : (String.mk ['m', 's', 'g'] = "meta") = False := eq_false (by decide)
  have heq2 : (String.mk ['m', 's', 'g'] = "msg") = True := eq_true (by decide)
  have hkey := parseStr_esc ['m', 's', 'g']
    (':' :: ('"' :: (s.data.flatMap escChar ++ '"' :: tail)))
  simp only [List.flatMap_cons, List.flatMap_nil, List.append_nil, List.append_assoc,
    List.cons_append] at hkey ⊢
  have hmks : (String.mk s.data = s) := rfl
  simp [hkey, parseStr_esc, skipWs, isWs, hne1, heq2, hmks]

theorem parseWireFields_meta (fuel : Nat) (m : Meta) (tail : List Char) (hm : MCanon m) :
    parseWireFields ((m.length + fuel) + 1) ((encodeStr "meta" ++ ':' :: printMetaObj m) ++ tail)
        ⟨[], ""⟩
      = match skipWs tail with
        | ',' :: rest5 => parseWireFields (m.length + fuel) rest5 ⟨m, ""⟩
        | '\x7d' :: rest5 => some (⟨m, ""⟩, rest5)
        | _ => none := by
  have hshape : (encodeStr "meta" ++ ':' :: printMetaObj m) ++ tail
      = '"' :: ("meta".data.flatMap escChar ++ '"' :: (':' :: (printMetaObj m ++ tail))) := by
    simp [encodeStr]
  rw [hshape]
  simp only [parseWireFields]
  rw [skipWs_not_ws (by decide)]
  have heq1 : (String.mk ['m', 'e', 't', 'a'] = "meta") = True := eq_true (by decide)
  have hobj : skipWs (printMetaObj m ++ tail) = printMetaObj m ++ tail := by
    rw [show printMetaObj m ++ tail
      = '\x7b' :: ((printFields (m.map fun kv => (kv.1, encodeJVal kv.2))) ++ '\x7d' :: tail) by
        simp [printMetaObj]]
    exact skipWs_not_ws (by decide) _
  have hkey := parseStr_esc ['m', 'e', 't', 'a'] (':' :: (printMetaObj m ++ tail))
  have hmobj := parseMetaObj_print m fuel tail hm
  have hunf : printMetaObj m ++ tail
      = '\x7b' :: ((printFields (m.map fun kv => (kv.1, encodeJVal kv.2))) ++ '\x7d' :: tail) := by
    simp [printMetaObj]
  rw [hunf] at hmobj
  simp only [List.flatMap_cons, List.flatMap_nil, List.append_nil, List.append_assoc,
    List.cons_append] at hkey ⊢
  simp [hkey, skipWs, isWs, heq1, hobj, hmobj]

theorem parseWireFields_internal (fuel : Nat) (g : GoErr) (tail : List Char) (st : RawWire) :
    parseWireFields (fuel + 1) ((encodeStr "internal_error" ++ ':' :: GoErr.marshalJson g) ++ tail)
        st = none := by
  have hshape : (encodeStr "internal_error" ++ ':' :: GoErr.marshalJson g) ++ tail
      = '"' :: ("internal_error".data.flatMap escChar ++ '"' ::
          (':' :: ('\x7b' :: '\x7d' :: tail))) := by
    simp [encodeStr, GoErr.marshalJson]
  rw [hshape]
  simp only [parseWireFields]
  rw [skipWs_not_ws (by decide)]
  have hne1 : (String.mk "internal_error".data = "meta") = False := eq_false (by decide)
  have hne2 : (String.mk "internal_error".data = "msg") = False := eq_false (by decide)
  have heq3 : (String.mk "internal_error".data = "internal_error") = True := eq_true (by decide)
  have hkey := parseStr_esc "internal_error".data (':' :: ('\x7b' :: '\x7d' :: tail))
  simp only [List.flatMap_cons, List.flatMap_nil, List.append_nil, List.append_assoc,
    List.cons_append] at hkey ⊢
  simp [hkey, skipWs, isWs, hne1, hne2, heq3]

theorem encodeStr_length_ge (k : String) : 2 ≤ (encodeStr k).length := by
  simp only [encodeStr, List.length_cons, List.length_append]
  omega

theorem printFields_length_ge : ∀ (fs : List (String × List Char)),
    fs.length ≤ (printFields fs).length := by
  intro fs
  induction fs with
  | nil => simp [printFields]
  | cons f fs2 ih =>
    obtain ⟨k, v⟩ := f
    cases fs2 with
    | nil =>
      have := encodeStr_length_ge k
      simp only [printFields, List.length_append, List.length_cons, List.length_nil]
      omega
    | cons f2 fs3 =>
      have := encodeStr_length_ge k
      simp only [printFields, List.length_append, List.length_cons] at ih ⊢
      omega

theorem printMetaObj_length_ge (m : Meta) : m.length ≤ (printMetaObj m).length := by
  have h1 := printFields_length_ge (m.map fun kv => (kv.1, encodeJVal kv.2))
  simp only [printMetaObj, List.length_cons, List.length_append, List.length_map] at h1 ⊢
  omega

theorem parseWire_case_a : parseWire (String.mk ['\x7b', '\x7d']) = some ⟨[], ""⟩ := by
  decide

theorem parseWire_open (c : Char) (X : List Char) (hws : isWs c = false) (hne : ¬ c = '\x7d') :
    parseWire (String.mk ('\x7b' :: c :: X)) =
      match parseWireFields (X.length + 3) (c :: X) ⟨[], ""⟩ with
      | none => none
      | some (st, rest2) => if skipWs rest2 = [] then some st else none := by
  simp only [parseWire]
  rw [skipWs_not_ws (by decide)]
  simp only [List.length_cons]
  have hlen : X.length + 1 + 1 + 1 = X.length + 3 := by omega
  rw [hlen]
  simp [skipWs_not_ws hws, hne]

theorem parseWireFields_meta_comma (fuel : Nat) (m : Meta) (R : List Char) (hm : MCanon m) :
    parseWireFields ((m.length + fuel) + 1)
        ((encodeStr "meta" ++ ':' :: printMetaObj m) ++ ',' :: R) ⟨[], ""⟩
      = parseWireFields (m.length + fuel) R ⟨m, ""⟩ := by
  rw [parseWireFields_meta fuel m (',' :: R) hm, skipWs_not_ws (by decide)]
  rfl

theorem parseWireFields_msg_close (fuel : Nat) (s : String) (R : List Char) (st : RawWire) :
    parseWireFields (fuel + 1) ((encodeStr "msg" ++ ':' :: encodeStr s) ++ '\x7d' :: R) st
      = some (⟨st.meta, s⟩, R) := by
  rw [parseWireFields_msg fuel s ('\x7d' :: R) st, skipWs_not_ws (by decide)]
  rfl

theorem parseWire_print (code : Int) (m : Meta) (msg : String) (hm : MCanon m) :
    parseWire (String.mk (wireMarshalChars ⟨code, m, msg, none⟩)) = some ⟨m, msg⟩ := by
  by_cases hm0 : m = []
  · by_cases hs0 : msg = ""
    · subst hm0; subst hs0
      have hchars : wireMarshalChars ⟨code, [], "", none⟩ = ['\x7b', '\x7d'] := by
        simp [wireMarshalChars, wireFields, printFields]
      rw [hchars]
      exact parseWire_case_a
    · subst hm0
      have hchars : wireMarshalChars ⟨code, [], msg, none⟩
          = '\x7b' :: ((encodeStr "msg" ++ ':' :: encodeStr msg) ++ '\x7d' :: []) := by
        simp [wireMarshalChars, wireFields, printFields, hs0]
      have hbody : (encodeStr "msg" ++ ':' :: encodeStr msg) ++ '\x7d' :: []
          = '"' :: ("msg".data.flatMap escChar ++ '"' ::
              (':' :: ('"' :: (msg.data.flatMap escChar ++ '"' :: ('\x7d' :: []))))) := by
        simp [encodeStr]
      rw [hchars, hbody, parseWire_open '"' _ (by decide) (by decide), ← hbody]
      have harith : ("msg".data.flatMap escChar ++ '"' ::
            (':' :: ('"' :: (msg.data.flatMap escChar ++ '"' :: ('\x7d' :: []))))).length + 3
          = (("msg".data.flatMap escChar ++ '"' ::
              (':' :: ('"' :: (msg.data.flatMap escChar ++ '"' :: ('\x7d' :: []))))).length + 2) + 1 := by
        omega
      rw [harith, parseWireFields_msg _ msg ('\x7d' :: []) ⟨[], ""⟩]
      simp [skipWs, isWs]
  · by_cases hs0 : msg = ""
    · subst hs0
      have hchars : wireMarshalChars ⟨code, m, "", none⟩
          = '\x7b' :: ((encodeStr "meta" ++ ':' :: printMetaObj m) ++ '\x7d' :: []) := by
        simp [wireMarshalChars, wireFields, printFields, hm0]
      have hbody : (encodeStr "meta" ++ ':' :: printMetaObj m) ++ '\x7d' :: []
          = '"' :: ("meta".data.flatMap escChar ++ '"' ::
              (':' :: (printMetaObj m ++ '\x7d' :: []))) := by
        simp [encodeStr]
      rw [hchars, hbody, parseWire_open '"' _ (by decide) (by decide), ← hbody]
      have hXlen : m.length ≤ ("meta".data.flatMap escChar ++ '"' ::
          (':' :: (printMetaObj m ++ '\x7d' :: []))).length + 2 := by
        have := printMetaObj_length_ge m
        simp only [List.length_append, List.length_cons]
        omega
      have harith : ("meta".data.flatMap escChar ++ '"' ::
            (':' :: (printMetaObj m ++ '\x7d' :: []))).length + 3
          = ((m.length + (("meta".data.flatMap escChar ++ '"' ::
              (':' :: (printMetaObj m ++ '\x7d' :: []))).length + 2 - m.length)) + 1) := by
        omega
      rw [harith, parseWireFields_meta _ m ('\x7d' :: []) hm]
      simp [skipWs, isWs]
    · have hchars : wireMarshalChars ⟨code, m, msg, none⟩
          = '\x7b' :: ((encodeStr "meta" ++ ':' :: printMetaObj m) ++ ',' ::
              ((encodeStr "msg" ++ ':' :: encodeStr msg) ++ '\x7d' :: [])) := by
        simp [wireMarshalChars, wireFields, printFields, hm0, hs0]
      have hbody : (encodeStr "meta" ++ ':' :: printMetaObj m) ++ ',' ::
            ((encodeStr "msg" ++ ':' :: encodeStr msg) ++ '\x7d' :: [])
          = '"' :: ("meta".data.flatMap escChar ++ '"' ::
              (':' :: (printMetaObj m ++ ',' ::
                ((encodeStr "msg" ++ ':' :: encodeStr msg) ++ '\x7d' :: [])))) := by
        simp [encodeStr]
      rw [hchars, hbody, parseWire_open '"' _ (by decide) (by decide), ← hbody]
      have hXlen : m.length ≤ ("meta".data.flatMap escChar ++ '"' ::
          (':' :: (printMetaObj m ++ ',' ::
            ((encodeStr "msg" ++ ':' :: encodeStr msg) ++ '\x7d' :: [])))).length + 1 := by
        have := printMetaObj_length_ge m
        simp only [List.length_append, List.length_cons]
        omega
      have harith : ("meta".data.flatMap escChar ++ '"' ::
            (':' :: (printMetaObj m ++ ',' ::
              ((encodeStr "msg" ++ ':' :: encodeStr msg) ++ '\x7d' :: [])))).length + 3
          = ((m.length + ((("meta".data.flatMap escChar ++ '"' ::
              (':' :: (printMetaObj m ++ ',' ::
                ((encodeStr "msg" ++ ':' :: encodeStr msg) ++ '\x7d' :: [])))).length + 1 - m.length) + 1)) + 1) := by
        omega
      rw [harith, parseWireFields_meta_comma _ m _ hm]
      have harith2 : m.length + ((("meta".data.flatMap escChar ++ '"' ::
            (':' :: (printMetaObj m ++ ',' ::
              ((encodeStr "msg" ++ ':' :: encodeStr msg) ++ '\x7d' :: [])))).length + 1 - m.length) + 1)
          = (m.length + (("meta".data.flatMap escChar ++ '"' ::
              (':' :: (printMetaObj m ++ ',' ::
                ((encodeStr "msg" ++ ':' :: encodeStr msg) ++ '\x7d' :: [])))).length + 1 - m.length)) + 1 := by
        omega
      rw [harith2, parseWireFields_msg_close _ msg [] ⟨m, ""⟩]
      simp [skipWs]

theorem parseWireFields_msg_comma (fuel : Nat) (s : String) (R : List Char) (st : RawWire) :
    parseWireFields (fuel + 1) ((encodeStr "msg" ++ ':' :: encodeStr s) ++ ',' :: R) st
      = parseWireFields fuel R ⟨st.meta, s⟩ := by
  rw [parseWireFields_msg fuel s (',' :: R) st, skipWs_not_ws (by decide)]
  rfl

theorem parseWire_fail (code : Int) (m : Meta) (msg : String) (g : GoErr) (hm : MCanon m) :
    parseWire (String.mk (wireMarshalChars ⟨code, m, msg, some g⟩)) = none := by
  by_cases hm0 : m = []
  · by_cases hs0 : msg = ""
    · subst hm0; subst hs0
      have hchars : wireMarshalChars ⟨code, [], "", some g⟩
          = '\x7b' :: ((encodeStr "internal_error" ++ ':' :: GoErr.marshalJson g) ++ '\x7d' :: []) := by
        simp [wireMarshalChars, wireFields, printFields]
      have hbody : (encodeStr "internal_error" ++ ':' :: GoErr.marshalJson g) ++ '\x7d' :: []
          = '"' :: ("internal_error".data.flatMap escChar ++ '"' ::
              (':' :: ('\x7b' :: ('\x7d' :: ('\x7d' :: []))))) := by
        simp [encodeStr, GoErr.marshalJson]
      rw [hchars, hbody, parseWire_open '"' _ (by decide) (by decide), ← hbody]
      have harith : ("internal_error".data.flatMap escChar ++ '"' ::
            (':' :: ('\x7b' :: ('\x7d' :: ('\x7d' :: []))))).length + 3
          = (("internal_error".data.flatMap escChar ++ '"' ::
              (':' :: ('\x7b' :: ('\x7d' :: ('\x7d' :: []))))).length + 2) + 1 := by
        omega
      rw [harith, parseWireFields_internal _ g ('\x7d' :: []) ⟨[], ""⟩]
    · subst hm0
      have hchars : wireMarshalChars ⟨code, [], msg, some g⟩
          = '\x7b' :: ((encodeStr "msg" ++ ':' :: encodeStr msg) ++ ',' ::
              ((encodeStr "internal_error" ++ ':' :: GoErr.marshalJson g) ++ '\x7d' :: [])) := by
        simp [wireMarshalChars, wireFields, printFields, hs0]
      have hbody : (encodeStr "msg" ++ ':' :: encodeStr msg) ++ ',' ::
            ((encodeStr "internal_error" ++ ':' :: GoErr.marshalJson g) ++ '\x7d' :: [])
          = '"' :: ("msg".data.flatMap escChar ++ '"' ::
              (':' :: ('"' :: (msg.data.flatMap escChar ++ '"' :: (',' ::
                ((encodeStr "internal_error" ++ ':' :: GoErr.marshalJson g) ++ '\x7d' :: [])))))) := by
        simp [encodeStr]
      rw [hchars, hbody, parseWire_open '"' _ (by decide) (by decide), ← hbody]
      have harith : ("msg".data.flatMap escChar ++ '"' ::
            (':' :: ('"' :: (msg.data.flatMap escChar ++ '"' :: (',' ::
              ((encodeStr "internal_error" ++ ':' :: GoErr.marshalJson g) ++ '\x7d' :: [])))))).length + 3
          = ((("msg".data.flatMap escChar ++ '"' ::
              (':' :: ('"' :: (msg.data.flatMap escChar ++ '"' :: (',' ::
                ((encodeStr "internal_error" ++ ':' :: GoErr.marshalJson g) ++ '\x7d' :: [])))))).length + 1) + 1) + 1 := by
        omega
      rw [harith, parseWireFields_msg_comma _ msg _ ⟨[], ""⟩,
        parseWireFields_internal _ g ('\x7d' :: []) ⟨[], msg⟩]
  · by_cases hs0 : msg = ""
    · subst hs0
      have hchars : wireMarshalChars ⟨code, m, "", some g⟩
          = '\x7b' :: ((encodeStr "meta" ++ ':' :: printMetaObj m) ++ ',' ::
              ((encodeStr "internal_error" ++ ':' :: GoErr.marshalJson g) ++ '\x7d' :: [])) := by
        simp [wireMarshalChars, wireFields, printFields, hm0]
      have hbody : (encodeStr "meta" ++ ':' :: printMetaObj m) ++ ',' ::
            ((encodeStr "internal_error" ++ ':' :: GoErr.marshalJson g) ++ '\x7d' :: [])
          = '"' :: ("meta".data.flatMap escChar ++ '"' ::
              (':' :: (printMetaObj m ++ ',' ::
                ((encodeStr "internal_error" ++ ':' :: GoErr.marshalJson g) ++ '\x7d' :: [])))) := by
        simp [encodeStr]
      rw [hchars, hbody, parseWire_open '"' _ (by decide) (by decide), ← hbody]
      have hXlen : m.length ≤ ("meta".data.flatMap escChar ++ '"' ::
          (':' :: (printMetaObj m ++ ',' ::
            ((encodeStr "internal_error" ++ ':' :: GoErr.marshalJson g) ++ '\x7d' :: [])))).length + 1 := by
        have := printMetaObj_length_ge m
        simp only [List.length_append, List.length_cons]
        omega
      have harith : ("meta".data.flatMap escChar ++ '"' ::
            (':' :: (printMetaObj m ++ ',' ::
              ((encodeStr "internal_error" ++ ':' :: GoErr.marshalJson g) ++ '\x7d' :: [])))).length + 3
          = ((m.length + ((("meta".data.flatMap escChar ++ '"' ::
              (':' :: (printMetaObj m ++ ',' ::
                ((encodeStr "internal_error" ++ ':' :: GoErr.marshalJson g) ++ '\x7d' :: [])))).length + 1 - m.length) + 1)) + 1) := by
        omega
      rw [harith, parseWireFields_meta_comma _ m _ hm]
      have harith2 : m.length + ((("meta".data.flatMap escChar ++ '"' ::
            (':' :: (printMetaObj m ++ ',' ::
              ((encodeStr "internal_error" ++ ':' :: GoErr.marshalJson g) ++ '\x7d' :: [])))).length + 1 - m.length) + 1)
          = (m.length + (("meta".data.flatMap escChar ++ '"' ::
              (':' :: (printMetaObj m ++ ',' ::
                ((encodeStr "internal_error" ++ ':' :: GoErr.marshalJson g) ++ '\x7d' :: [])))).length + 1 - m.length)) + 1 := by
        omega
      rw [harith2, parseWireFields_internal _ g ('\x7d' :: []) ⟨m, ""⟩]
    · have hchars : wireMarshalChars ⟨code, m, msg, some g⟩
          = '\x7b' :: ((encodeStr "meta" ++ ':' :: printMetaObj m) ++ ',' ::
              ((encodeStr "msg" ++ ':' :: encodeStr msg) ++ ',' ::
                ((encodeStr "internal_error" ++ ':' :: GoErr.marshalJson g) ++ '\x7d' :: []))) := by
        simp [wireMarshalChars, wireFields, printFields, hm0, hs0]
      have hbody : (encodeStr "meta" ++ ':' :: printMetaObj m) ++ ',' ::
            ((encodeStr "msg" ++ ':' :: encodeStr msg) ++ ',' ::
              ((encodeStr "internal_error" ++ ':' :: GoErr.marshalJson g) ++ '\x7d' :: []))
          = '"' :: ("meta".data.flatMap escChar ++ '"' ::
              (':' :: (printMetaObj m ++ ',' ::
                ((encodeStr "msg" ++ ':' :: encodeStr msg) ++ ',' ::
                  ((encodeStr "internal_error" ++ ':' :: GoErr.marshalJson g) ++ '\x7d' :: []))))) := by
        simp [encodeStr]
      rw [hchars, hbody, parseWire_open '"' _ (by decide) (by decide), ← hbody]
      have hXlen : m.length ≤ ("meta".data.flatMap escChar ++ '"' ::
          (':' :: (printMetaObj m ++ ',' ::
            ((encodeStr "msg" ++ ':' :: encodeStr msg) ++ ',' ::
              ((encodeStr "internal_error" ++ ':' :: GoErr.marshalJson g) ++ '\x7d' :: []))))).length := by
        have := printMetaObj_length_ge m
        simp only [List.length_append, List.length_cons]
        omega
      have harith : ("meta".data.flatMap escChar ++ '"' ::
            (':' :: (printMetaObj m ++ ',' ::
              ((encodeStr "msg" ++ ':' :: encodeStr msg) ++ ',' ::
                ((encodeStr "internal_error" ++ ':' :: GoErr.marshalJson g) ++ '\x7d' :: []))))).length + 3
          = ((m.length + (((("meta".data.flatMap escChar ++ '"' ::
              (':' :: (printMetaObj m ++ ',' ::
                ((encodeStr "msg" ++ ':' :: encodeStr msg) ++ ',' ::
                  ((encodeStr "internal_error" ++ ':' :: GoErr.marshalJson g) ++ '\x7d' :: []))))).length - m.length) + 1) + 1)) + 1) := by
        omega
      rw [harith, parseWireFields_meta_comma _ m _ hm]
      have harith2 : m.length + (((("meta".data.flatMap escChar ++ '"' ::
            (':' :: (printMetaObj m ++ ',' ::
              ((encodeStr "msg" ++ ':' :: encodeStr msg) ++ ',' ::
                ((encodeStr "internal_error" ++ ':' :: GoErr.marshalJson g) ++ '\x7d' :: []))))).length - m.length) + 1) + 1)
          = ((m.length + ((("meta".data.flatMap escChar ++ '"' ::
              (':' :: (printMetaObj m ++ ',' ::
                ((encodeStr "msg" ++ ':' :: encodeStr msg) ++ ',' ::
                  ((encodeStr "internal_error" ++ ':' :: GoErr.marshalJson g) ++ '\x7d' :: []))))).length - m.length) + 1)) + 1) := by
        omega
      rw [harith2, parseWireFields_msg_comma _ msg _ ⟨m, ""⟩]
      have harith3 : m.length + ((("meta".data.flatMap escChar ++ '"' ::
            (':' :: (printMetaObj m ++ ',' ::
              ((encodeStr "msg" ++ ':' :: encodeStr msg) ++ ',' ::
                ((encodeStr "internal_error" ++ ':' :: GoErr.marshalJson g) ++ '\x7d' :: []))))).length - m.length) + 1)
          = (m.length + (("meta".data.flatMap escChar ++ '"' ::
              (':' :: (printMetaObj m ++ ',' ::
                ((encodeStr "msg" ++ ':' :: encodeStr msg) ++ ',' ::
                  ((encodeStr "internal_error" ++ ':' :: GoErr.marshalJson g) ++ '\x7d' :: []))))).length - m.length)) + 1 := by
        omega
      rw [harith3, parseWireFields_internal _ g ('\x7d' :: []) ⟨m, msg⟩]

theorem FromGRPC_ToGRPC (code : Int) (m : Meta) (msg : String) (hm : MCanon m) :
    FromGRPC (Error.ToGRPC ⟨code, m, msg, none⟩) = ⟨code, m, msg, none⟩ := by
  show (match parseWire (String.mk (wireMarshalChars ⟨code, m, msg, none⟩)) with
    | none => InternalServerFromError (some (GoErr.grpcE code
        (String.mk (wireMarshalChars ⟨code, m, msg, none⟩)))) "unexpected error" []
    | some raw => ⟨code, raw.meta, raw.msg, none⟩) = ⟨code, m, msg, none⟩
  rw [parseWire_print code m msg hm]

/-- C1 (counterexample): the round-trip claim as stated fails for errors built
with `NewFromError` and a non-nil wrapped cause: encoding then decoding
`NewFromError(400, errors.New("boom"), "x")` yields status 500 and message
"unexpected error" instead of the original 400 and "x". -/
theorem C1_counterexample :
    (FromGRPC (Error.ToGRPC (NewFromError 400 (some (GoErr.plain "boom")) "x" []))).StatusCode = 500
    ∧ (NewFromError 400 (some (GoErr.plain "boom")) "x" []).StatusCode = 400
    ∧ (FromGRPC (Error.ToGRPC (NewFromError 400 (some (GoErr.plain "boom")) "x" []))).Message
        = "unexpected error"
    ∧ (NewFromError 400 (some (GoErr.plain "boom")) "x" []).Message = "x"
    ∧ (FromGRPC (Error.ToGRPC (NewFromError 400 (some (GoErr.plain "boom")) "x" []))).Meta = [] := by
  refine ⟨?_, rfl, ?_, rfl, ?_⟩ <;> decide

/-- C1 (amended): for every StructuredError built through the public
constructors with no wrapped cause — `New`, every per-status convenience
constructor, and `NewFromError` with a nil error — with any message and any
sequence of `SetMeta` options, decoding the wire encoding reconstructs the
error exactly (code, message, and metadata, and the nil cause). -/
theorem C1_roundtrip (code : Int) (msg : String) (ms : List Meta) :
    FromGRPC (Error.ToGRPC (New code msg (ms.map SetMeta))) = New code msg (ms.map SetMeta)
    ∧ FromGRPC (Error.ToGRPC (NewFromError code none msg (ms.map SetMeta)))
        = NewFromError code none msg (ms.map SetMeta)
    ∧ FromGRPC (Error.ToGRPC (BadRequest msg (ms.map SetMeta))) = BadRequest msg (ms.map SetMeta)
    ∧ FromGRPC (Error.ToGRPC (Unauthorized msg (ms.map SetMeta))) = Unauthorized msg (ms.map SetMeta)
    ∧ FromGRPC (Error.ToGRPC (Delinquent msg (ms.map SetMeta))) = Delinquent msg (ms.map SetMeta)
    ∧ FromGRPC (Error.ToGRPC (Forbidden msg (ms.map SetMeta))) = Forbidden msg (ms.map SetMeta)
    ∧ FromGRPC (Error.ToGRPC (NotFound msg (ms.map SetMeta))) = NotFound msg (ms.map SetMeta)
    ∧ FromGRPC (Error.ToGRPC (NotAcceptable msg (ms.map SetMeta))) = NotAcceptable msg (ms.map SetMeta)
    ∧ FromGRPC (Error.ToGRPC (InvalidParams msg (ms.map SetMeta))) = InvalidParams msg (ms.map SetMeta)
    ∧ FromGRPC (Error.ToGRPC (RateLimit msg (ms.map SetMeta))) = RateLimit msg (ms.map SetMeta)
    ∧ FromGRPC (Error.ToGRPC (InternalServer msg (ms.map SetMeta))) = InternalServer msg (ms.map SetMeta) := by
  refine ⟨?_, ?_, ?_, ?_, ?_, ?_, ?_, ?_, ?_, ?_, ?_⟩ <;>
    exact FromGRPC_ToGRPC _ _ _ (applySetters_canon ms)

/-- C2 (code bug): on a description that is not valid JSON the spec and the
repository's own test expect the fallback `StructuredError` with
`code = status` and `message = description` verbatim; the code instead
returns `InternalServerFromError(err, "unexpected error")` — a 500 error
with message "unexpected error" wrapping the received gRPC error.  Decoding
(401, "let's go") exhibits the divergence. -/
theorem C2_fallback_divergence :
    parseWire "let\x27s go" = none
    ∧ FromGRPC ⟨401, "let\x27s go"⟩
        = ⟨500, [], "unexpected error", some (GoErr.grpcE 401 "let\x27s go")⟩
    ∧ ¬ FromGRPC ⟨401, "let\x27s go"⟩ = ⟨401, [], "let\x27s go", none⟩ := by
  refine ⟨?_, ?_, ?_⟩ <;> decide

/-- C3 (counterexample): the message of an error built by `NewFromError` is
not derived from the wrapped error's own message: wrapping an error whose
message is "boom" while passing the explicit message "hello" produces the
message "hello". -/
theorem C3_counterexample :
    (NewFromError 400 (some (GoErr.plain "boom")) "hello" []).Message = "hello"
    ∧ (GoErr.plain "boom").errMsg = "boom"
    ∧ ¬ (NewFromError 400 (some (GoErr.plain "boom")) "hello" []).Message
        = (GoErr.plain "boom").errMsg := by
  refine ⟨rfl, rfl, ?_⟩
  decide

/-- C3 (amended): `NewFromError` and the per-status `*FromError`
constructors take the message as an explicit argument; the resulting
error's message is that argument, its code is the given (or pre-filled)
code, and the wrapped error is stored unchanged as the internal cause. -/
theorem C3_message_from_argument (code : Int) (err : Option GoErr) (msg : String)
    (ms : List Meta) :
    (NewFromError code err msg (ms.map SetMeta)).Message = msg
    ∧ (NewFromError code err msg (ms.map SetMeta)).InternalError = err
    ∧ (NewFromError code err msg (ms.map SetMeta)).StatusCode = code
    ∧ BadRequestFromError err msg (ms.map SetMeta) = NewFromError 400 err msg (ms.map SetMeta)
    ∧ UnauthorizedFromError err msg (ms.map SetMeta) = NewFromError 401 err msg (ms.map SetMeta)
    ∧ DelinquentFromError err msg (ms.map SetMeta) = NewFromError 402 err msg (ms.map SetMeta)
    ∧ ForbiddenFromError err msg (ms.map SetMeta) = NewFromError 403 err msg (ms.map SetMeta)
    ∧ NotFoundFromError err msg (ms.map SetMeta) = NewFromError 404 err msg (ms.map SetMeta)
    ∧ NotAcceptableFromError err msg (ms.map SetMeta) = NewFromError 406 err msg (ms.map SetMeta)
    ∧ InvalidParamsFromError err msg (ms.map SetMeta) = NewFromError 422 err msg (ms.map SetMeta)
    ∧ RateLimitFromError err msg (ms.map SetMeta) = NewFromError 429 err msg (ms.map SetMeta)
    ∧ InternalServerFromError err msg (ms.map SetMeta) = NewFromError 500 err msg (ms.map SetMeta) :=
  ⟨rfl, rfl, rfl, rfl, rfl, rfl, rfl, rfl, rfl, rfl, rfl, rfl⟩

/-- C4: metadata options are applied in the order given as a fold of
right-biased unions — the constructor metadata is the left fold of
`mergeMeta` over the option maps; a key present in the later map wins and a
key absent from it keeps its earlier value; applying the options
[{"a":"1"}, {"a":"2","b":"3"}] yields metadata {"a":"2","b":"3"}. -/
theorem C4_meta_merge :
    (∀ (code : Int) (msg : String) (ms : List Meta),
      (New code msg (ms.map SetMeta)).Meta = ms.foldl mergeMeta [])
    ∧ (∀ (params m2 : Meta) (k : String), (m2.map Prod.fst).Nodup →
        metaFind (mergeMeta params m2) k
          = match metaFind m2 k with
            | some v => some v
            | none => metaFind params k)
    ∧ (New 0 "" ([[("a", JVal.jstr "1")], [("a", JVal.jstr "2"), ("b", JVal.jstr "3")]].map
        SetMeta)).Meta = [("a", JVal.jstr "2"), ("b", JVal.jstr "3")] := by
  refine ⟨?_, fun params m2 k h => metaFind_mergeMeta m2 params h k, by decide⟩
  intro code msg ms
  show applySetters (ms.map SetMeta) = ms.foldl mergeMeta []
  rw [applySetters, List.foldl_map]
  rfl

/-- C4 witness: the right-biased-union lookup law applied at the concrete
maps of the claim, with the no-duplicate-keys hypothesis discharged. -/
theorem C4_witness :
    metaFind (mergeMeta [("a", JVal.jstr "1")] [("a", JVal.jstr "2"), ("b", JVal.jstr "3")]) "a"
      = some (JVal.jstr "2") := by
  rw [C4_meta_merge.2.1 [("a", JVal.jstr "1")] [("a", JVal.jstr "2"), ("b", JVal.jstr "3")] "a"
    (by decide)]
  decide

/-- C5: for every StructuredError, the wire encoding pairs the numeric
status (equal to the error's code) with a JSON object description whose
`meta` key is present exactly when the metadata is non-empty and whose
`msg` key is present exactly when the message is non-empty; an error with
empty message and metadata (and no cause) encodes with description `{}`. -/
theorem C5_encode :
    (∀ e : Error,
      (Error.ToGRPC e).code = e.StatusCode
      ∧ (Error.ToGRPC e).desc = String.mk ('\x7b' :: printFields (wireFields e) ++ ['\x7d'])
      ∧ (("meta" ∈ (wireFields e).map Prod.fst) ↔ ¬ e.Meta = [])
      ∧ (("msg" ∈ (wireFields e).map Prod.fst) ↔ ¬ e.Message = ""))
    ∧ (Error.ToGRPC (InternalServer "" [])).desc = "\x7b\x7d" := by
  refine ⟨fun e => ⟨rfl, rfl, ?_, ?_⟩, by decide⟩ <;>
    (by_cases hm : e.Meta = [] <;> by_cases hs : e.Message = "" <;>
      cases hi : e.InternalError <;> simp [wireFields, hm, hs, hi])

/-- C6 (modelled from the spec: the stringer-generated `Code.String` is not
under src/): identifier derivation is a total function of the code; on the
nine registered codes it returns the fixed table value, and on every other
code it returns the fallback `Code(n)`. -/
theorem C6_error_id :
    (codeStr 400 = "bad_request" ∧ codeStr 401 = "unauthorized"
      ∧ codeStr 402 = "delinquent" ∧ codeStr 403 = "forbidden"
      ∧ codeStr 404 = "not_found" ∧ codeStr 406 = "not_acceptable"
      ∧ codeStr 422 = "invalid_params" ∧ codeStr 429 = "rate_limit"
      ∧ codeStr 500 = "internal_server")
    ∧ (∀ e : Error, e.ErrorID = codeStr e.StatusCode)
    ∧ (∀ n : Int, n ∉ ([400, 401, 402, 403, 404, 406, 422, 429, 500] : List Int) →
        codeStr n = "Code(" ++ intStr n ++ ")") := by
  refine ⟨⟨rfl, rfl, rfl, rfl, rfl, rfl, rfl, rfl, rfl⟩, fun e => rfl, fun n hn => ?_⟩
  simp only [List.mem_cons, List.not_mem_nil, or_false] at hn
  push_neg at hn
  obtain ⟨h1, h2, h3, h4, h5, h6, h7, h8, h9⟩ := hn
  simp [codeStr, h1, h2, h3, h4, h5, h6, h7, h8, h9]

/-- C6 witness: the fallback branch evaluated at the unregistered code 7. -/
theorem C6_error_id_witness : codeStr 7 = "Code(7)" :=
  (C6_error_id.2.2 7 (by decide)).trans (by decide)

/-- C7: JSON serialization produces the keys in the order `meta`, `msg`,
`error_id`, `status_code`, with `meta` omitted exactly when the metadata is
empty, `msg` omitted exactly when the message is empty, and `error_id` and
`status_code` always present; `New(0, "")` serializes to exactly
`{"error_id":"Code(0)","status_code":0}`. -/
theorem C7_marshal_json :
    (∀ e : Error,
      Error.MarshalJSON e = String.mk ('\x7b' :: printFields (jsonFields e) ++ ['\x7d'])
      ∧ (jsonFields e).map Prod.fst
          = (if e.Meta = [] then [] else ["meta"]) ++ (if e.Message = "" then [] else ["msg"])
            ++ ["error_id", "status_code"])
    ∧ Error.MarshalJSON (New 0 "" []) = "\x7b\"error_id\":\"Code(0)\",\"status_code\":0\x7d" := by
  refine ⟨fun e => ⟨rfl, ?_⟩, by decide⟩
  by_cases hm : e.Meta = [] <;> by_cases hs : e.Message = "" <;> simp [jsonFields, hm, hs]

/-- C8: the display form starts with `status_code=<n> error_id="<id>"`,
appends a ` msg="<message>"` token only when the message is non-empty,
appends a ` desc="..."` token only when a cause is wrapped, and one
` <key>=<value>` token per metadata entry; `New(1, "")` formats as exactly
`status_code=1 error_id="Code(1)"` and `New(1, "hi")` as
`status_code=1 error_id="Code(1)" msg="hi"`. -/
theorem C8_display :
    (∀ e : Error, e.InternalError = none →
      Error.errorString e
        = "status_code=" ++ intStr e.StatusCode ++ " error_id="
          ++ goQuote (codeStr e.StatusCode)
          ++ (if e.Message = "" then "" else " msg=" ++ goQuote e.Message)
          ++ String.join (e.Meta.map fun kv => " " ++ kv.1 ++ "=" ++ metaValDisplay kv.2))
    ∧ (∀ e : Error, ∃ t, Error.errorString e
        = "status_code=" ++ intStr e.StatusCode ++ " error_id="
          ++ goQuote (codeStr e.StatusCode) ++ t)
    ∧ Error.errorString (New 1 "" []) = "status_code=1 error_id=\"Code(1)\""
    ∧ Error.errorString (New 1 "hi" []) = "status_code=1 error_id=\"Code(1)\" msg=\"hi\"" := by
  refine ⟨fun e he => ?_, fun e => ?_, by decide, by decide⟩
  · simp [Error.errorString, he]
  · refine ⟨(if e.Message = "" then "" else " msg=" ++ goQuote e.Message)
      ++ (match e.InternalError with
          | none => ""
          | some g => " desc=" ++ goQuote g.errMsg)
      ++ String.join (e.Meta.map fun kv => " " ++ kv.1 ++ "=" ++ metaValDisplay kv.2), ?_⟩
    simp [Error.errorString, String.append_assoc]

/-- C8 witness: the display law applied at a concrete error carrying a
message and one metadata entry, with the no-cause hypothesis discharged. -/
theorem C8_display_witness :
    Error.errorString (New 2 "ho" [SetMeta [("k", JVal.jstr "v")]])
      = "status_code=2 error_id=\"Code(2)\" msg=\"ho\" k=\"v\"" :=
  (C8_display.1 (New 2 "ho" [SetMeta [("k", JVal.jstr "v")]]) rfl).trans (by decide)

/-- C9: `BuildError` is the identity on a value that is already a `*Error`
(every field unchanged), wraps any other non-nil error as an
internal_server (500) error carrying it as the internal cause with message
"unexpected error", and maps nil to nil. -/
theorem C9_build_error :
    (∀ e : Error, BuildError (some (AnyError.structured e)) = some e)
    ∧ (∀ g : GoErr, BuildError (some (AnyError.other g))
        = some ⟨500, [], "unexpected error", some g⟩)
    ∧ BuildError none = none :=
  ⟨fun _ => rfl, fun _ => rfl, rfl⟩

/-- C10: attaching a non-nil cause makes the wire round trip lossy as a
whole: the encoding carries an `internal_error` key, and decoding the
encoding yields the decode-failure fallback — an internal_server (500)
error with message "unexpected error" wrapping the received gRPC error —
rather than an error agreeing with the original on code, message, or
metadata. -/
theorem C10_cause_breaks_roundtrip (e : Error) (g : GoErr) (hm : MCanon e.Meta)
    (hc : e.InternalError = some g) :
    ("internal_error" ∈ (wireFields e).map Prod.fst)
    ∧ FromGRPC (Error.ToGRPC e)
        = ⟨500, [], "unexpected error",
            some (GoErr.grpcE e.StatusCode (Error.ToGRPC e).desc)⟩ := by
  obtain ⟨code, m, msg, cause⟩ := e
  simp only at hc hm
  subst hc
  constructor
  · simp [wireFields]
  · show (match parseWire (String.mk (wireMarshalChars ⟨code, m, msg, some g⟩)) with
      | none => InternalServerFromError (some (GoErr.grpcE code
          (String.mk (wireMarshalChars ⟨code, m, msg, some g⟩)))) "unexpected error" []
      | some raw => ⟨code, raw.meta, raw.msg, none⟩) = _
    rw [parseWire_fail code m msg g hm]
    rfl

/-- C10 witness: the lossy-round-trip law applied at a concrete error built
by `NewFromError` with a wrapped cause, discharging both hypotheses. -/
theorem C10_witness :
    ("internal_error" ∈
      (wireFields (NewFromError 400 (some (GoErr.plain "boom")) "x" [])).map Prod.fst)
    ∧ FromGRPC (Error.ToGRPC (NewFromError 400 (some (GoErr.plain "boom")) "x" []))
        = ⟨500, [], "unexpected error",
            some (GoErr.grpcE 400
              (Error.ToGRPC (NewFromError 400 (some (GoErr.plain "boom")) "x" [])).desc)⟩ :=
  C10_cause_breaks_roundtrip _ (GoErr.plain "boom") List.Pairwise.nil rfl

end Errors
